import Mathlib

/-!
Verification development for the Smart-Scheduler repository.

The definitions below are shallow embeddings of the Python source:

* `get_travel_time`, `DistRow` embed `smart_scheduler_app.py`'s
  `get_travel_time` (lines 1346-1378) over the loaded `distances.csv`
  rows.  `display_text_to_postcode` is a lookup into the clustered-regions
  dataframe and is passed in as the function parameter `conv`.
* minute arithmetic is done in `Int` (Python ints), fractional CSV values
  in `ℚ` (Python floats on the values actually reachable are exact
  decimals; the claims do not depend on rounding of the data itself).
* Python `int(x)` truncates toward zero; `pyInt` mirrors that on `ℚ`.
-/

namespace SmartScheduler

/-- Truncation toward zero, Python's `int()` on a float. -/
def pyInt (q : ℚ) : Int :=
  if q < 0 then -((-q).floor) else q.floor

/-- Python's `str.upper()` restricted to ASCII, which is all postcodes use.
(Core's `String.toUpper` is not kernel-reducible, so the character map is
spelled out.) -/
def pyUpper (s : String) : String :=
  String.mk (s.data.map Char.toUpper)

/-- Python's `str.strip()`: drop leading and trailing whitespace. -/
def pyStrip (s : String) : String :=
  String.mk (((s.data.dropWhile Char.isWhitespace).reverse.dropWhile Char.isWhitespace).reverse)

/-- One row of `distances.csv` as loaded into `self.distances_df`. -/
structure DistRow where
  origin : String
  destination : String
  driving_time_minutes : ℚ
deriving DecidableEq

/-- The row filter of `get_travel_time`:
`((df['origin'] == origin) & (df['destination'] == destination)) |
 ((df['origin'] == destination) & (df['destination'] == origin))`. -/
def distMatch (o d : String) (r : DistRow) : Bool :=
  (r.origin == o && r.destination == d) || (r.origin == d && r.destination == o)

/-- Embedding of `smart_scheduler_app.get_travel_time` (lines 1346-1378).
`conv` is `display_text_to_postcode` (a pure lookup into the
clustered-regions table), `distances` is `self.distances_df` (`none` when
no dataframe is loaded).  The `except` branch of the source cannot fire on
well-formed in-memory rows and is not modelled. -/
def get_travel_time (conv : String → String) (distances : Option (List DistRow))
    (origin destination : String) : Int :=
  if origin = "" ∨ destination = "" ∨ distances = none then 30
  else
    match distances with
    | none => 30
    | some rows =>
      let o := pyUpper (pyStrip (conv origin))
      let d := pyUpper (pyStrip (conv destination))
      if o = d then 0
      else
        match rows.find? (distMatch o d) with
        | some row =>
            if 0 < row.driving_time_minutes then max (pyInt row.driving_time_minutes) 1 else 30
        | none => 30

lemma distMatch_symm (o d : String) : distMatch o d = distMatch d o := by
  funext r
  simp only [distMatch]
  cases h1 : r.origin == o <;> cases h2 : r.destination == d <;>
    cases h3 : r.origin == d <;> cases h4 : r.destination == o <;> rfl

/-- C9: travel-time lookup is symmetric in its two postcode arguments,
for every distance table (including tables that record only one of the
two orderings of a pair). -/
theorem travel_time_symm (conv : String → String) (distances : Option (List DistRow))
    (a b : String) :
    get_travel_time conv distances a b = get_travel_time conv distances b a := by
  unfold get_travel_time
  cases distances with
  | none => simp
  | some rows =>
    by_cases ha : a = ""
    · by_cases hb : b = "" <;> simp [ha, hb]
    · by_cases hb : b = ""
      · simp [ha, hb]
      · simp only [ha, hb, false_or, or_false]
        rw [distMatch_symm]
        by_cases he : pyUpper (pyStrip (conv a)) = pyUpper (pyStrip (conv b))
        · simp [he]
        · simp [he, Ne.symm he, eq_comm (a := pyUpper (pyStrip (conv b)))]

/-- C10: when both arguments are nonempty, normalise to distinct postcodes
and the table has a matching row (in either orientation), the lookup
returns the recorded value truncated to whole minutes with a floor of 1
when that value is strictly positive, and the 30-minute fallback when the
recorded value is zero or negative. -/
theorem travel_time_recorded_row (conv : String → String) (rows : List DistRow)
    (a b : String) (row : DistRow)
    (ha : a ≠ "") (hb : b ≠ "")
    (hne : pyUpper (pyStrip (conv a)) ≠ pyUpper (pyStrip (conv b)))
    (hrow : rows.find? (distMatch (pyUpper (pyStrip (conv a))) (pyUpper (pyStrip (conv b)))) = some row) :
    get_travel_time conv (some rows) a b =
      (if 0 < row.driving_time_minutes then max (pyInt row.driving_time_minutes) 1 else 30) ∧
    (row.driving_time_minutes = 0 → get_travel_time conv (some rows) a b = 30) := by
  constructor
  · unfold get_travel_time
    simp [ha, hb, hne, hrow]
  · intro h0
    unfold get_travel_time
    simp [ha, hb, hne, hrow, h0]

/-- Witness for C10: a table recording a genuine zero-minute distance
between two distinct postcodes reports 30 minutes. -/
theorem travel_time_recorded_row_witness :
    get_travel_time id (some [⟨"A", "B", 0⟩]) "A" "B" = 30 :=
  (travel_time_recorded_row id [⟨"A", "B", 0⟩] "A" "B" ⟨"A", "B", 0⟩
    (by decide) (by decide) (by decide) (by rfl)).2 rfl

end SmartScheduler

namespace Clustering

/-!
Embedding of `tsp_clustering_app.calculate_minimum_days_for_region`
(lines 1155-1252).  The `self.*` plumbing (mapping a region number to
`matrix_indices` via postcode dictionaries, and parsing the two config
spinboxes) is passed in as arguments: `idxs` is `matrix_indices`, `d` is
`self.driving_time_matrix` with `none` standing for `np.inf` (an unknown
pair), `depot` is `self.depot_postcode_idx`, `serviceH` / `workH` are the
parsed `service_time_var` / `work_hours_var`.  `np.ceil` on the exact
rational value is `ratCeil`.
-/

/-- `np.ceil` on an exact rational, as an integer. -/
def ratCeil (q : ℚ) : Int := -((-q).floor)

/-- One step of the depot-leg minimum loop (lines 1197-1200):
`if not np.isinf(dist) and dist < min_depot_distance: min_depot_distance = dist`,
with `none` standing for the initial `np.inf`. -/
def minStep (d : ℕ → ℕ → Option ℚ) (depot : ℕ) (acc : Option ℚ) (idx : ℕ) : Option ℚ :=
  match d depot idx with
  | some v =>
    match acc with
    | some m => if v < m then some v else some m
    | none => some v
  | none => acc

/-- The depot-leg minimum loop (lines 1196-1200): running minimum over
finite entries, starting from `np.inf` (`none`). -/
def minDepotLeg (d : ℕ → ℕ → Option ℚ) (depot : ℕ) (idxs : List ℕ) : Option ℚ :=
  idxs.foldl (minStep d depot) none

/-- One step of the intra-territory accumulation (lines 1220-1225): skip
the diagonal, accumulate finite entries into (sum, count). -/
def pairStep (d : ℕ → ℕ → Option ℚ) (i : ℕ) (acc2 : ℚ × ℕ) (j : ℕ) : ℚ × ℕ :=
  if i ≠ j then
    match d i j with
    | some v => (acc2.1 + v, acc2.2 + 1)
    | none => acc2
  else acc2

/-- The intra-territory accumulation (lines 1217-1225): sum and count of
the finite entries over all ordered pairs of distinct index values. -/
def intraSum (d : ℕ → ℕ → Option ℚ) (idxs : List ℕ) : ℚ × ℕ :=
  idxs.foldl (fun acc i => idxs.foldl (pairStep d i) acc) (0, 0)

/-- Embedding of `calculate_minimum_days_for_region` from the point where
`matrix_indices` has been computed (lines 1188-1252).  The earlier
fallback for a missing driving matrix (lines 1158-1164) is outside every
claim's hypotheses and not modelled. -/
def calculate_minimum_days (d : ℕ → ℕ → Option ℚ) (depot : ℕ) (idxs : List ℕ)
    (serviceH workH : ℚ) : Int :=
  if idxs = [] then 1
  else
    match minDepotLeg d depot idxs with
    | none =>
      let svc := serviceH * 60 * (idxs.length : ℚ)
      ratCeil ((svc / 60) / workH) + 1
    | some m =>
      let tour :=
        if 1 < idxs.length then
          let p := intraSum d idxs
          if 0 < p.2 then m + (p.1 / (p.2 : ℚ)) * ((idxs.length : ℚ) - 1)
          else m + m * (idxs.length : ℚ)
        else m
      let svc := serviceH * 60 * (idxs.length : ℚ)
      ratCeil ((((tour + m) + svc) / 60) / workH) + 1

lemma ratFloor_mono {a b : ℚ} (h : a ≤ b) : Rat.floor a ≤ Rat.floor b :=
  Rat.le_floor.mpr (le_trans (Rat.le_floor.mp (le_refl _)) h)

lemma ratCeil_mono {a b : ℚ} (h : a ≤ b) : ratCeil a ≤ ratCeil b := by
  unfold ratCeil
  exact neg_le_neg (ratFloor_mono (neg_le_neg h))

lemma ratCeil_nonneg {a : ℚ} (h : 0 ≤ a) : 0 ≤ ratCeil a := by
  unfold ratCeil
  have h0 : Rat.floor (-a) ≤ Rat.floor 0 := ratFloor_mono (neg_nonpos.mpr h)
  have : Rat.floor (0 : ℚ) = 0 := by decide
  omega

/-- Any property preserved by the step function is preserved by `foldl`. -/
lemma foldl_preserve {α β : Type} (P : β → Prop) (f : β → α → β)
    (hf : ∀ b a, P b → P (f b a)) : ∀ (l : List α) (b : β), P b → P (l.foldl f b) := by
  intro l
  induction l with
  | nil => intro b hb; exact hb
  | cons a rest ih => intro b hb; exact ih _ (hf b a hb)

lemma minStep_nonneg (d : ℕ → ℕ → Option ℚ) (depot : ℕ)
    (hd : ∀ i j v, d i j = some v → 0 ≤ v) (acc : Option ℚ) (idx : ℕ)
    (hacc : ∀ x, acc = some x → 0 ≤ x) :
    ∀ x, minStep d depot acc idx = some x → 0 ≤ x := by
  intro x hx
  unfold minStep at hx
  rcases hda : d depot idx with _ | v <;> rw [hda] at hx
  · exact hacc x hx
  · rcases acc with _ | m0 <;> dsimp only at hx
    · injection hx with h; subst h; exact hd depot idx _ hda
    · by_cases hlt : v < m0
      · rw [if_pos hlt] at hx; injection hx with h; subst h; exact hd depot idx _ hda
      · rw [if_neg hlt] at hx; injection hx with h; subst h; exact hacc m0 rfl

lemma minDepotLeg_nonneg (d : ℕ → ℕ → Option ℚ) (depot : ℕ) (idxs : List ℕ)
    (hd : ∀ i j v, d i j = some v → 0 ≤ v) :
    ∀ m, minDepotLeg d depot idxs = some m → 0 ≤ m := by
  unfold minDepotLeg
  exact foldl_preserve (fun acc => ∀ x, acc = some x → 0 ≤ x) (minStep d depot)
    (fun b a hb => minStep_nonneg d depot hd b a hb) idxs none (by intro x hx; cases hx)

lemma pairStep_nonneg (d : ℕ → ℕ → Option ℚ) (i : ℕ)
    (hd : ∀ i j v, d i j = some v → 0 ≤ v) (acc2 : ℚ × ℕ) (j : ℕ)
    (hacc : 0 ≤ acc2.1) : 0 ≤ (pairStep d i acc2 j).1 := by
  unfold pairStep
  by_cases hij : i ≠ j
  · rw [if_pos hij]
    rcases hda : d i j with _ | v
    · exact hacc
    · exact add_nonneg hacc (hd i j v hda)
  · rw [if_neg hij]; exact hacc

lemma intraSum_fst_nonneg (d : ℕ → ℕ → Option ℚ) (idxs : List ℕ)
    (hd : ∀ i j v, d i j = some v → 0 ≤ v) :
    0 ≤ (intraSum d idxs).1 := by
  unfold intraSum
  refine foldl_preserve (fun (acc : ℚ × ℕ) => 0 ≤ acc.1) _ ?_ idxs ((0 : ℚ), (0 : ℕ)) le_rfl
  intro b a hb
  exact foldl_preserve (fun (acc : ℚ × ℕ) => 0 ≤ acc.1) (pairStep d a)
    (fun b2 a2 hb2 => pairStep_nonneg d a hd b2 a2 hb2) idxs b hb

lemma intraSum_cnt_zero_of_short (d : ℕ → ℕ → Option ℚ) (idxs : List ℕ)
    (h : idxs.length ≤ 1) : (intraSum d idxs).2 = 0 := by
  match idxs, h with
  | [], _ => rfl
  | [a], _ => simp [intraSum, pairStep]

lemma intraSum_cnt_pos_length (d : ℕ → ℕ → Option ℚ) (idxs : List ℕ)
    (h : 0 < (intraSum d idxs).2) : 1 < idxs.length := by
  by_contra hle
  rw [intraSum_cnt_zero_of_short d idxs (by omega)] at h
  exact absurd h (by omega)

/-- Shared characterisation: on the claims' main path (finite depot leg and
at least one finite intra-territory pair) the estimator equals the closed
formula of the spec, with the working day expressed in minutes. -/
lemma calculate_minimum_days_spec (d : ℕ → ℕ → Option ℚ) (depot : ℕ) (idxs : List ℕ)
    (serviceH workH : ℚ) (m : ℚ)
    (hm : minDepotLeg d depot idxs = some m)
    (hcnt : 0 < (intraSum d idxs).2) :
    calculate_minimum_days d depot idxs serviceH workH =
      ratCeil ((m + ((intraSum d idxs).1 / ((intraSum d idxs).2 : ℚ)) * ((idxs.length : ℚ) - 1)
        + m + serviceH * 60 * (idxs.length : ℚ)) / (workH * 60)) + 1 := by
  have hlen : 1 < idxs.length := intraSum_cnt_pos_length d idxs hcnt
  have hne : idxs ≠ [] := by
    intro h; rw [h] at hlen; exact absurd hlen (by decide)
  unfold calculate_minimum_days
  rw [if_neg hne, hm]
  simp only [hlen, if_true, hcnt, if_pos]
  congr 1
  congr 1
  rw [div_div]
  ring_nf

lemma ratFloor_eq (q : ℚ) : Rat.floor q = ⌊q⌋ := rfl

lemma ratCeil_eq (q : ℚ) : ratCeil q = ⌈q⌉ := by
  unfold ratCeil
  rw [ratFloor_eq, Int.floor_neg, neg_neg]

/-- C4: on a territory whose depot leg and at least one intra-territory
pair have finite driving times, the estimator returns exactly
`ceil((nearest_depot_leg + avg_pairwise * (count - 1) + nearest_depot_leg
+ service_hours * 60 * count) / work_minutes_per_day) + 1`, and the result
is at least 1. -/
theorem minimum_days_formula (d : ℕ → ℕ → Option ℚ) (depot : ℕ) (idxs : List ℕ)
    (serviceH workH : ℚ) (m : ℚ)
    (hm : minDepotLeg d depot idxs = some m)
    (hcnt : 0 < (intraSum d idxs).2)
    (hw : 0 < workH) (hs : 0 ≤ serviceH)
    (hd : ∀ i j v, d i j = some v → 0 ≤ v) :
    calculate_minimum_days d depot idxs serviceH workH =
      ratCeil ((m + ((intraSum d idxs).1 / ((intraSum d idxs).2 : ℚ)) * ((idxs.length : ℚ) - 1)
        + m + serviceH * 60 * (idxs.length : ℚ)) / (workH * 60)) + 1 ∧
    1 ≤ calculate_minimum_days d depot idxs serviceH workH := by
  have hspec := calculate_minimum_days_spec d depot idxs serviceH workH m hm hcnt
  refine ⟨hspec, ?_⟩
  rw [hspec]
  have hm0 : 0 ≤ m := minDepotLeg_nonneg d depot idxs hd m hm
  have hlen : 1 < idxs.length := intraSum_cnt_pos_length d idxs hcnt
  have havg : 0 ≤ (intraSum d idxs).1 / ((intraSum d idxs).2 : ℚ) :=
    div_nonneg (intraSum_fst_nonneg d idxs hd) (Nat.cast_nonneg _)
  have hl1 : (0:ℚ) ≤ (idxs.length : ℚ) - 1 := by
    have h1 : (1:ℚ) ≤ (idxs.length : ℚ) := by exact_mod_cast Nat.one_le_of_lt hlen
    linarith
  have hsv : (0:ℚ) ≤ serviceH * 60 * (idxs.length : ℚ) := by positivity
  have hnum : 0 ≤ m + ((intraSum d idxs).1 / ((intraSum d idxs).2 : ℚ)) * ((idxs.length : ℚ) - 1)
      + m + serviceH * 60 * (idxs.length : ℚ) := by
    nlinarith [mul_nonneg havg hl1]
  have hc : 0 ≤ ratCeil ((m + ((intraSum d idxs).1 / ((intraSum d idxs).2 : ℚ))
      * ((idxs.length : ℚ) - 1) + m + serviceH * 60 * (idxs.length : ℚ)) / (workH * 60)) :=
    ratCeil_nonneg (div_nonneg hnum (by positivity))
  omega

/-- Witness for C4 at a concrete uniform driving-time matrix. -/
theorem minimum_days_formula_witness :
    calculate_minimum_days (fun _ _ => some (10:ℚ)) 0 [1, 2] 1 8 =
      ratCeil ((10 + ((intraSum (fun _ _ => some (10:ℚ)) [1, 2]).1
        / ((intraSum (fun _ _ => some (10:ℚ)) [1, 2]).2 : ℚ)) * (((2:ℕ) : ℚ) - 1)
        + 10 + 1 * 60 * (((2:ℕ) : ℚ))) / (8 * 60)) + 1 ∧
    1 ≤ calculate_minimum_days (fun _ _ => some (10:ℚ)) 0 [1, 2] 1 8 :=
  minimum_days_formula (fun _ _ => some (10:ℚ)) 0 [1, 2] 1 8 10 rfl
    (by norm_num [intraSum, pairStep]) (by norm_num) (by norm_num)
    (fun i j v h => by injection h with h; rw [← h]; norm_num)

/-- The concrete driving-time matrix refuting C5: depot 0, territory
members 1 and 2 are 1000 minutes apart but only 5 minutes from the depot;
the added location 3 is 1 minute from either member. -/
def c5d : ℕ → ℕ → Option ℚ := fun i j =>
  if i = j then some 0 else
  if i = 0 ∨ j = 0 then some 5 else
  if i = 3 ∨ j = 3 then some 1 else some 1000

/-- Counterexample to C5 as stated: adding location 3 to territory
`[1, 2]` lowers the estimate from 4 days to 3 days, because the added
location drags the average pairwise driving time down. -/
theorem minimum_days_not_monotone :
    calculate_minimum_days c5d 0 [1, 2, 3] 1 8
      < calculate_minimum_days c5d 0 [1, 2] 1 8 := by
  have h1 : calculate_minimum_days c5d 0 [1, 2] 1 8 = 4 := by
    unfold calculate_minimum_days
    rw [if_neg (by simp)]
    norm_num [minDepotLeg, minStep, intraSum, pairStep, c5d, ratCeil_eq]
    rw [show (⌈(113:ℚ)/48⌉ : ℤ) = 3 from by rw [Int.ceil_eq_iff]; norm_num]
    norm_num
  have h2 : calculate_minimum_days c5d 0 [1, 2, 3] 1 8 = 3 := by
    unfold calculate_minimum_days
    rw [if_neg (by simp)]
    norm_num [minDepotLeg, minStep, intraSum, pairStep, c5d, ratCeil_eq]
    rw [show (⌈(143:ℚ)/80⌉ : ℤ) = 2 from by rw [Int.ceil_eq_iff]; norm_num]
    norm_num
  rw [h1, h2]
  decide

/-- C5 amended: adding a location never decreases the estimate provided
the addition leaves the nearest-depot leg unchanged and does not decrease
the average pairwise intra-territory driving time (the two quantities the
counterexample shows can otherwise drop). -/
theorem minimum_days_monotone_amended (d : ℕ → ℕ → Option ℚ) (depot : ℕ)
    (S : List ℕ) (x : ℕ) (serviceH workH : ℚ) (m : ℚ)
    (hm : minDepotLeg d depot S = some m)
    (hmx : minDepotLeg d depot (S ++ [x]) = some m)
    (hcnt : 0 < (intraSum d S).2)
    (hcntx : 0 < (intraSum d (S ++ [x])).2)
    (havg : (intraSum d S).1 / ((intraSum d S).2 : ℚ)
      ≤ (intraSum d (S ++ [x])).1 / ((intraSum d (S ++ [x])).2 : ℚ))
    (hw : 0 < workH) (hs : 0 ≤ serviceH)
    (hd : ∀ i j v, d i j = some v → 0 ≤ v) :
    calculate_minimum_days d depot S serviceH workH
      ≤ calculate_minimum_days d depot (S ++ [x]) serviceH workH := by
  rw [calculate_minimum_days_spec d depot S serviceH workH m hm hcnt,
    calculate_minimum_days_spec d depot (S ++ [x]) serviceH workH m hmx hcntx]
  have ha0 : 0 ≤ (intraSum d S).1 / ((intraSum d S).2 : ℚ) :=
    div_nonneg (intraSum_fst_nonneg d S hd) (Nat.cast_nonneg _)
  have hlen : 1 < S.length := intraSum_cnt_pos_length d S hcnt
  have hn1 : (1:ℚ) ≤ (S.length : ℚ) := by exact_mod_cast Nat.one_le_of_lt hlen
  have hlapp : ((S ++ [x]).length : ℚ) = (S.length : ℚ) + 1 := by
    rw [List.length_append, List.length_singleton]
    push_cast
    ring
  refine add_le_add_right (ratCeil_mono ((div_le_div_iff_of_pos_right (by positivity)).mpr ?_)) 1
  rw [hlapp]
  nlinarith [mul_nonneg ha0 (by linarith : (0:ℚ) ≤ (S.length : ℚ) - 1)]

/-- Witness for the amended C5 at a uniform matrix, where neither the
depot leg nor the pairwise average changes. -/
theorem minimum_days_monotone_amended_witness :
    calculate_minimum_days (fun _ _ => some (10:ℚ)) 0 [1, 2] 1 8
      ≤ calculate_minimum_days (fun _ _ => some (10:ℚ)) 0 ([1, 2] ++ [3]) 1 8 :=
  minimum_days_monotone_amended (fun _ _ => some (10:ℚ)) 0 [1, 2] 3 1 8 10 rfl rfl
    (by norm_num [intraSum, pairStep]) (by norm_num [intraSum, pairStep])
    (by norm_num [intraSum, pairStep])
    (by norm_num) (by norm_num)
    (fun i j v h => by injection h with h; rw [← h]; norm_num)

end Clustering

namespace SchedulerEngine

/-!
Embedding of the travel/conflict engine of `smart_scheduler_app.py`:
`recalculate_travel_times` (lines 1231-1319), `check_travel_conflicts`
(lines 1197-1229) and `get_available_slots` (lines 1877-1944).

Modelling choices, all read off the source:

* a time slot is its minutes-from-midnight value (`time_to_minutes` of the
  slot string); `generate_time_slots` (lines 131-139) produces the
  ascending 30-minute grid, so sorting by `self.time_slots.index(...)` is
  the stable sort by start minutes (`sortByStart` below);
* `self.appointments` is a dict `{(date, slot): postcode}` — an
  association list with insertion-order iteration, unique keys in every
  reachable state;
* `self.get_travel_time` reads the loaded distance table; it enters the
  engine only through its result, so it is the function field `tt`;
* `int(self.appointment_duration_var.get())` is the field `duration`;
* a conflict entry is the pair ((seg_start, seg_end), (appt_start,
  appt_end)) that the source formats into a message string;
* `self.conflicting_segments` is a Python set; it is modelled as a
  duplicate-free list built by `setAdd`, with membership the only
  operation the source uses.
-/

/-- The info dict attached to each travel segment (lines 1257-1261 etc.). -/
structure SegInfo where
  minutes : Int
  to_home : Bool
  from_home : Bool
deriving DecidableEq

/-- A travel segment `(date, start_minutes, end_minutes, info)`. -/
structure TravelSeg where
  date : String
  start : Int
  stop : Int
  info : SegInfo
deriving DecidableEq

/-- A key of the `self.appointments` dict. -/
abbrev CellKey := String × Int

/-- The engine state: the fields of the application object that the three
embedded methods read or write. -/
structure SchedState where
  appointments : List (CellKey × String)
  confirmed_appointments : List (String × (String × Int × Int × Bool))
  travel_segments : List TravelSeg
  conflicting_segments : List (String × Int × Int)
deriving DecidableEq

/-- The configuration the engine reads but never writes. -/
structure Config where
  home_postcode : Option String
  start_hour : Int
  end_hour : Int
  duration : Int
  tt : String → String → Int

/-- Python set `.add`. -/
def setAdd (l : List (String × Int × Int)) (x : String × Int × Int) : List (String × Int × Int) :=
  if x ∈ l then l else l ++ [x]

/-- `key in self.appointments`. -/
def dictMem (k : CellKey) (l : List (CellKey × String)) : Bool :=
  l.any (fun kv => kv.1 == k)

/-- `self.appointments[key] = value` (append when absent, update in place
when present, as a Python dict does). -/
def dictInsert (k : CellKey) (v : String) (l : List (CellKey × String)) :
    List (CellKey × String) :=
  if dictMem k l then l.map (fun kv => if kv.1 == k then (k, v) else kv) else l ++ [(k, v)]

/-- `del self.appointments[key]`. -/
def dictRemove (k : CellKey) (l : List (CellKey × String)) : List (CellKey × String) :=
  l.filter (fun kv => kv.1 != k)

/-- `generate_time_slots` (lines 131-139): 30-minute marks from
`start_hour*60` up to (excluding) `end_hour*60`. -/
def generate_time_slots (start_hour end_hour : Int) : List Int :=
  (List.range ((end_hour - start_hour) * 2).toNat).map (fun k => start_hour * 60 + 30 * (k : Int))

/-- Stable insertion of an appointment into a list sorted by start
minutes (before any later-listed equal element). -/
def insertByStart (x : CellKey × String) : List (CellKey × String) → List (CellKey × String)
  | [] => [x]
  | y :: rest => if x.1.2 ≤ y.1.2 then x :: y :: rest else y :: insertByStart x rest

/-- `date_appointments.sort(key=lambda x: self.time_slots.index(x[0][1]))`
(line 1245): a stable sort by slot position, i.e. by start minutes. -/
def sortByStart (l : List (CellKey × String)) : List (CellKey × String) :=
  l.foldr insertByStart []

/-- Duration lookup used throughout (e.g. lines 1272-1275): the confirmed
appointment's stored duration, else the current duration setting. -/
def durationOf (cfg : Config) (conf : List (String × (String × Int × Int × Bool)))
    (pc : String) : Int :=
  match conf.find? (fun kv => kv.1 == pc) with
  | some kv => kv.2.2.2.1
  | none => cfg.duration

/-- The dummy entry `headD`/`getD` can never return on the nonempty path. -/
def dfltAppt : CellKey × String := (("", 0), "")

/-- The travel segments `recalculate_travel_times` builds for one date
from the date's sorted appointment list (lines 1247-1317):
`FROM_DEPOT` (only when a home postcode is configured), one `BETWEEN` per
consecutive pair, and `TO_DEPOT` (always, 30-minute fallback without a
home postcode). -/
def newSegsFor (cfg : Config) (conf : List (String × (String × Int × Int × Bool)))
    (sorted : List (CellKey × String)) (date : String) : List TravelSeg :=
  let first := sorted.headD dfltAppt
  let fromPart : List TravelSeg :=
    match cfg.home_postcode with
    | some home =>
      let t := cfg.tt home first.2
      [⟨date, first.1.2 - t, first.1.2, ⟨t, false, true⟩⟩]
    | none => []
  let between : List TravelSeg :=
    (List.range (sorted.length - 1)).map (fun i =>
      let cur := sorted.getD i dfltAppt
      let nxt := sorted.getD (i + 1) dfltAppt
      let cur_dur := durationOf cfg conf cur.2
      let cur_end := cur.1.2 + cur_dur
      let t := cfg.tt cur.2 nxt.2
      ⟨date, cur_end, cur_end + t, ⟨t, false, false⟩⟩)
  let lastA := sorted.getLastD dfltAppt
  let last_end := lastA.1.2 + durationOf cfg conf lastA.2
  let travel_home :=
    match cfg.home_postcode with
    | some home => cfg.tt lastA.2 home
    | none => 30
  fromPart ++ between ++ [⟨date, last_end, last_end + travel_home, ⟨travel_home, true, false⟩⟩]

/-- Embedding of `recalculate_travel_times` (lines 1231-1319). -/
def recalculate_travel_times (cfg : Config) (st : SchedState) (date : String) : SchedState :=
  let segs := st.travel_segments.filter (fun s => s.date ≠ date)
  let confl := st.conflicting_segments.filter (fun s => s.1 ≠ date)
  let date_appointments := st.appointments.filter (fun kv => kv.1.1 = date)
  if date_appointments = [] then
    { st with travel_segments := segs, conflicting_segments := confl }
  else
    let sorted := sortByStart date_appointments
    let first := sorted.headD dfltAppt
    let confl1 :=
      match cfg.home_postcode with
      | some home =>
        let t := cfg.tt home first.2
        if first.1.2 - t < cfg.start_hour * 60 then
          setAdd confl (date, first.1.2 - t, first.1.2)
        else confl
      | none => confl
    let lastA := sorted.getLastD dfltAppt
    let last_end := lastA.1.2 + durationOf cfg st.confirmed_appointments lastA.2
    let travel_home :=
      match cfg.home_postcode with
      | some home => cfg.tt lastA.2 home
      | none => 30
    let confl2 :=
      if last_end + travel_home > cfg.end_hour * 60 then
        setAdd confl1 (date, last_end, last_end + travel_home)
      else confl1
    { st with
      travel_segments := segs ++ newSegsFor cfg st.confirmed_appointments sorted date,
      conflicting_segments := confl2 }

/-- The appointment time ranges of one date (lines 1203-1213). -/
def apptRanges (cfg : Config) (conf : List (String × (String × Int × Int × Bool)))
    (appointments : List (CellKey × String)) (date : String) : List (Int × Int) :=
  (appointments.filter (fun kv => kv.1.1 = date)).map (fun kv =>
    (kv.1.2, kv.1.2 + durationOf cfg conf kv.2))

/-- The doubly-nested conflict scan of `check_travel_conflicts`
(lines 1216-1227), threading (conflict list, conflicting-segment set). -/
def checkFold (date : String) (ranges : List (Int × Int)) (segs : List TravelSeg)
    (acc : List ((Int × Int) × (Int × Int)) × List (String × Int × Int)) :
    List ((Int × Int) × (Int × Int)) × List (String × Int × Int) :=
  segs.foldl
    (fun acc seg =>
      if seg.date = date then
        ranges.foldl
          (fun acc2 r =>
            if seg.start < r.2 ∧ seg.stop > r.1 then
              (acc2.1 ++ [((seg.start, seg.stop), r)], setAdd acc2.2 (seg.date, seg.start, seg.stop))
            else acc2)
          acc
      else acc)
    acc

/-- Embedding of `check_travel_conflicts` (lines 1197-1229).  Note line
1200: the method begins with `self.conflicting_segments = set()`, so the
returned state's conflict set is rebuilt from the overlap scan alone. -/
def check_travel_conflicts (cfg : Config) (st : SchedState) (date : String) :
    List ((Int × Int) × (Int × Int)) × SchedState :=
  let ranges := apptRanges cfg st.confirmed_appointments st.appointments date
  let res := checkFold date ranges st.travel_segments ([], [])
  (res.1, { st with conflicting_segments := res.2 })

/-- The body of the slot loop of `get_available_slots` (lines 1889-1942)
for one (date, slot): the three pre-checks, then the speculative
insert / recompute / check / delete probe.  Returns the updated state and
whether the slot was reported available.  Note on line 1909: the source's
duration-refinement guard tests the slot string against the dict's tuple
keys and can never be true, so the pre-check always uses 30 minutes for
the other appointment. -/
def probe_step (cfg : Config) (pc : String) (date : String) (slot : Int)
    (st : SchedState) : SchedState × Bool :=
  let slots := generate_time_slots cfg.start_hour cfg.end_hour
  let end_minutes := slot + cfg.duration
  if end_minutes.fdiv 60 > cfg.end_hour then (st, false)
  else
    let has_conflict := slots.any (fun other =>
      dictMem (date, other) st.appointments &&
      (decide (slot < other + 30) && decide (end_minutes > other)))
    if has_conflict then (st, false)
    else if dictMem (date, slot) st.appointments then (st, false)
    else
      let st1 := { st with appointments := dictInsert (date, slot) pc st.appointments }
      let st2 := recalculate_travel_times cfg st1 date
      let r := check_travel_conflicts cfg st2 date
      let st4 := { r.2 with appointments := dictRemove (date, slot) r.2.appointments }
      (st4, r.1 = [])

/-- Embedding of `get_available_slots` (lines 1877-1944): fold the probe
over every selected date and every slot of the grid, collecting the
available (date, slot) pairs. -/
def get_available_slots (cfg : Config) (pc : String) (selected_dates : List String)
    (st : SchedState) : SchedState × List (String × Int) :=
  if pc = "" ∨ selected_dates = [] then (st, [])
  else
    let slots := generate_time_slots cfg.start_hour cfg.end_hour
    selected_dates.foldl
      (fun acc date =>
        slots.foldl
          (fun acc2 slot =>
            let r := probe_step cfg pc date slot acc2.1
            (r.1, if r.2 then acc2.2 ++ [(date, slot)] else acc2.2))
          acc)
      (st, [])

lemma mem_setAdd (l : List (String × Int × Int)) (y x : String × Int × Int) :
    x ∈ setAdd l y ↔ x ∈ l ∨ x = y := by
  unfold setAdd
  by_cases hy : y ∈ l
  · rw [if_pos hy]
    constructor
    · exact fun h => Or.inl h
    · rintro (h | rfl)
      · exact h
      · exact hy
  · rw [if_neg hy]
    simp

lemma range_map_consec {α β : Type} (f : α → α → β) (dflt : α) :
    ∀ l : List α,
      (List.range (l.length - 1)).map (fun i => f (l.getD i dflt) (l.getD (i + 1) dflt)) =
        (l.zip l.tail).map (fun p => f p.1 p.2) := by
  intro l
  induction l with
  | nil => rfl
  | cons a rest ih =>
    cases rest with
    | nil => rfl
    | cons b rest2 =>
      have hr : (a :: b :: rest2).length - 1 = (b :: rest2).length - 1 + 1 := by
        simp [List.length_cons]
      rw [hr, List.range_succ_eq_map, List.map_cons, List.map_map]
      have hmap :
          ((List.range ((b :: rest2).length - 1)).map
            ((fun i => f ((a :: b :: rest2).getD i dflt) ((a :: b :: rest2).getD (i + 1) dflt))
              ∘ (· + 1))) =
          (List.range ((b :: rest2).length - 1)).map
            (fun i => f ((b :: rest2).getD i dflt) ((b :: rest2).getD (i + 1) dflt)) := by
        apply List.map_congr_left
        intro i _
        rfl
      rw [hmap, ih]
      rfl

lemma newSegsFor_date (cfg : Config) (conf : List (String × (String × Int × Int × Bool)))
    (sorted : List (CellKey × String)) (date : String) :
    ∀ s ∈ newSegsFor cfg conf sorted date, s.date = date := by
  intro s hs
  unfold newSegsFor at hs
  rcases List.mem_append.mp hs with h | h
  · rcases List.mem_append.mp h with h1 | h2
    · rcases hhp : cfg.home_postcode with _ | home <;> rw [hhp] at h1
      · simp at h1
      · simp only [List.mem_singleton] at h1
        rw [h1]
    · rcases List.mem_map.mp h2 with ⟨i, _, hi⟩
      rw [← hi]
  · simp only [List.mem_singleton] at h
    rw [h]

lemma filter_ne_then_eq (l : List TravelSeg) (date : String) :
    (l.filter (fun s => s.date ≠ date)).filter (fun s => s.date = date) = [] := by
  rw [List.filter_eq_nil_iff]
  intro a ha
  have := List.of_mem_filter ha
  simp at this ⊢
  exact this

/-- C1: for a date with at least one appointment and a configured depot,
recomputing travel emits exactly one `FROM_DEPOT` segment covering
`[first_start - tt(depot, first), first_start)`, one `BETWEEN` segment per
consecutive pair covering `[prev_start + prev_dur, prev_start + prev_dur +
tt(prev, next))`, and one `TO_DEPOT` segment covering `[last_start +
last_dur, last_start + last_dur + tt(last, depot))`, with appointments in
start-time order; among the date's conflict flags, the `FROM_DEPOT`
segment is flagged exactly when its start precedes the working-window
start, the `TO_DEPOT` segment exactly when its end exceeds the
working-window end, and nothing else (in particular no `BETWEEN` segment)
is flagged for the date. -/
theorem recalc_emits_segments (cfg : Config) (st : SchedState) (date : String) (home : String)
    (hh : cfg.home_postcode = some home)
    (hne : st.appointments.filter (fun kv => kv.1.1 = date) ≠ []) :
    ((recalculate_travel_times cfg st date).travel_segments.filter (fun s => s.date = date) =
      (let sorted := sortByStart (st.appointments.filter (fun kv => kv.1.1 = date))
       let dur := durationOf cfg st.confirmed_appointments
       let first := sorted.headD dfltAppt
       let lastA := sorted.getLastD dfltAppt
       ⟨date, first.1.2 - cfg.tt home first.2, first.1.2, ⟨cfg.tt home first.2, false, true⟩⟩ ::
       ((sorted.zip sorted.tail).map (fun p =>
         ⟨date, p.1.1.2 + dur p.1.2, p.1.1.2 + dur p.1.2 + cfg.tt p.1.2 p.2.2,
          ⟨cfg.tt p.1.2 p.2.2, false, false⟩⟩) ++
       [⟨date, lastA.1.2 + dur lastA.2, lastA.1.2 + dur lastA.2 + cfg.tt lastA.2 home,
         ⟨cfg.tt lastA.2 home, true, false⟩⟩]))) ∧
    (∀ x : String × Int × Int,
      (x ∈ (recalculate_travel_times cfg st date).conflicting_segments ∧ x.1 = date) ↔
      (let sorted := sortByStart (st.appointments.filter (fun kv => kv.1.1 = date))
       let dur := durationOf cfg st.confirmed_appointments
       let first := sorted.headD dfltAppt
       let lastA := sorted.getLastD dfltAppt
       (first.1.2 - cfg.tt home first.2 < cfg.start_hour * 60 ∧
         x = (date, first.1.2 - cfg.tt home first.2, first.1.2)) ∨
       (lastA.1.2 + dur lastA.2 + cfg.tt lastA.2 home > cfg.end_hour * 60 ∧
         x = (date, lastA.1.2 + dur lastA.2, lastA.1.2 + dur lastA.2 + cfg.tt lastA.2 home)))) := by
  constructor
  · unfold recalculate_travel_times
    rw [if_neg hne]
    simp only
    rw [List.filter_append, filter_ne_then_eq,
      List.filter_eq_self.mpr (by
        intro s hs
        simp only [decide_eq_true_eq]
        exact newSegsFor_date cfg st.confirmed_appointments _ date s hs)]
    unfold newSegsFor
    rw [hh]
    simp only [List.nil_append]
    rw [range_map_consec
      (fun cur nxt =>
        (⟨date, cur.1.2 + durationOf cfg st.confirmed_appointments cur.2,
          cur.1.2 + durationOf cfg st.confirmed_appointments cur.2 + cfg.tt cur.2 nxt.2,
          ⟨cfg.tt cur.2 nxt.2, false, false⟩⟩ : TravelSeg)) dfltAppt]
    rfl
  · intro x
    unfold recalculate_travel_times
    rw [if_neg hne]
    simp only [hh]
    set sorted := sortByStart (st.appointments.filter (fun kv => kv.1.1 = date)) with hsorted
    set first := sorted.headD dfltAppt with hfirst
    set lastA := sorted.getLastD dfltAppt with hlast
    set confl := st.conflicting_segments.filter (fun s => s.1 ≠ date) with hconfl
    have hkept : x ∈ confl → ¬(x.1 = date) := by
      intro hx
      have := List.of_mem_filter hx
      simpa using this
    by_cases h1 : first.1.2 - cfg.tt home first.2 < cfg.start_hour * 60 <;>
      by_cases h2 : lastA.1.2 + durationOf cfg st.confirmed_appointments lastA.2 +
          cfg.tt lastA.2 home > cfg.end_hour * 60 <;>
      simp only [h1, h2, if_pos, if_neg, if_true, if_false, mem_setAdd, not_false_eq_true,
        not_true_eq_false, false_and, true_and, and_false, and_true, or_false, false_or]
    · constructor
      · rintro ⟨(hm | rfl) | rfl, hd⟩
        · exact absurd hd (hkept hm)
        · exact Or.inl rfl
        · exact Or.inr rfl
      · rintro (rfl | rfl)
        · exact ⟨Or.inl (Or.inr rfl), rfl⟩
        · exact ⟨Or.inr rfl, rfl⟩
    · constructor
      · rintro ⟨hm | rfl, hd⟩
        · exact absurd hd (hkept hm)
        · rfl
      · rintro rfl
        exact ⟨Or.inr rfl, rfl⟩
    · constructor
      · rintro ⟨hm | rfl, hd⟩
        · exact absurd hd (hkept hm)
        · rfl
      · rintro rfl
        exact ⟨Or.inr rfl, rfl⟩
    · constructor
      · rintro ⟨hm, hd⟩
        exact (hkept hm) hd
      · exact False.elim

/-- Concrete fixture: depot `D`, working window 08:00-19:00, default
60-minute appointments, travel `D`-`X` 45 minutes, all other distinct
pairs the 30-minute fallback. -/
def cfg8 : Config :=
  ⟨some "D", 8, 19, 60, fun a b =>
    if a == b then 0 else if (a == "D" && b == "X") || (a == "X" && b == "D") then 45 else 30⟩

/-- Confirmed durations for the fixture: `X` 09:00 for 60 min, `Y` 08:30
for 45 min. -/
def conf8 : List (String × (String × Int × Int × Bool)) :=
  [("X", ("d", 540, 60, true)), ("Y", ("d", 510, 45, true))]

/-- Fixture state with only appointment `X` (09:00-10:00). -/
def stA : SchedState := ⟨[(("d", 540), "X")], conf8, [], []⟩

/-- Fixture state after also adding `Y` (08:30-09:15). -/
def stB : SchedState := ⟨[(("d", 540), "X"), (("d", 510), "Y")], conf8, [], []⟩

/-- Witness for C1: on the fixture with one 09:00 appointment, the date's
segments are exactly `FROM_DEPOT` [08:15, 09:00) and `TO_DEPOT`
[10:00, 10:45). -/
theorem recalc_emits_segments_witness :
    (recalculate_travel_times cfg8 stA "d").travel_segments.filter (fun s => s.date = "d") =
      [⟨"d", 495, 540, ⟨45, false, true⟩⟩, ⟨"d", 600, 645, ⟨45, true, false⟩⟩] := by
  have h := (recalc_emits_segments cfg8 stA "d" "D" (by rfl) (by decide)).1
  rw [h]
  decide

lemma checkInner_mem (seg : TravelSeg) :
    ∀ (ranges : List (Int × Int))
      (acc : List ((Int × Int) × (Int × Int)) × List (String × Int × Int))
      (x : String × Int × Int),
      x ∈ (ranges.foldl
        (fun acc2 r =>
          if seg.start < r.2 ∧ seg.stop > r.1 then
            (acc2.1 ++ [((seg.start, seg.stop), r)], setAdd acc2.2 (seg.date, seg.start, seg.stop))
          else acc2)
        acc).2 ↔
      x ∈ acc.2 ∨ (x = (seg.date, seg.start, seg.stop) ∧
        ∃ r ∈ ranges, seg.start < r.2 ∧ seg.stop > r.1) := by
  intro ranges
  induction ranges with
  | nil => intro acc x; simp
  | cons r rest ih =>
    intro acc x
    by_cases hov : seg.start < r.2 ∧ seg.stop > r.1
    · rw [List.foldl_cons, if_pos hov]
      constructor
      · intro hm
        rcases (ih _ x).mp hm with hm2 | ⟨rfl, r', hr', hov'⟩
        · rcases (mem_setAdd _ _ _).mp hm2 with h | rfl
          · exact Or.inl h
          · exact Or.inr ⟨rfl, r, List.mem_cons_self r rest, hov⟩
        · exact Or.inr ⟨rfl, r', List.mem_cons_of_mem r hr', hov'⟩
      · intro hm
        apply (ih _ x).mpr
        rcases hm with h | ⟨rfl, r', hr', hov'⟩
        · exact Or.inl ((mem_setAdd _ _ _).mpr (Or.inl h))
        · rcases List.mem_cons.mp hr' with rfl | hr2
          · exact Or.inl ((mem_setAdd _ _ _).mpr (Or.inr rfl))
          · exact Or.inr ⟨rfl, r', hr2, hov'⟩
    · rw [List.foldl_cons, if_neg hov]
      constructor
      · intro hm
        rcases (ih _ x).mp hm with h | ⟨rfl, r', hr', hov'⟩
        · exact Or.inl h
        · exact Or.inr ⟨rfl, r', List.mem_cons_of_mem r hr', hov'⟩
      · intro hm
        apply (ih _ x).mpr
        rcases hm with h | ⟨rfl, r', hr', hov'⟩
        · exact Or.inl h
        · rcases List.mem_cons.mp hr' with rfl | hr2
          · exact absurd hov' hov
          · exact Or.inr ⟨rfl, r', hr2, hov'⟩

lemma checkFold_mem (date : String) (ranges : List (Int × Int)) :
    ∀ (segs : List TravelSeg)
      (acc : List ((Int × Int) × (Int × Int)) × List (String × Int × Int))
      (x : String × Int × Int),
      x ∈ (checkFold date ranges segs acc).2 ↔
        x ∈ acc.2 ∨ ∃ seg, seg ∈ segs ∧ seg.date = date ∧ x = (seg.date, seg.start, seg.stop) ∧
          ∃ r ∈ ranges, seg.start < r.2 ∧ seg.stop > r.1 := by
  intro segs
  induction segs with
  | nil => intro acc x; simp [checkFold]
  | cons seg rest ih =>
    intro acc x
    unfold checkFold at ih ⊢
    rw [List.foldl_cons]
    by_cases hd : seg.date = date
    · rw [if_pos hd]
      rw [ih _ x, checkInner_mem seg ranges acc x]
      constructor
      · rintro ((h | ⟨rfl, hr⟩) | ⟨seg', hs', hd', rfl, hr'⟩)
        · exact Or.inl h
        · exact Or.inr ⟨seg, List.mem_cons_self seg rest, hd, rfl, hr⟩
        · exact Or.inr ⟨seg', List.mem_cons_of_mem seg hs', hd', rfl, hr'⟩
      · rintro (h | ⟨seg', hs', hd', rfl, hr'⟩)
        · exact Or.inl (Or.inl h)
        · rcases List.mem_cons.mp hs' with rfl | hs2
          · exact Or.inl (Or.inr ⟨rfl, hr'⟩)
          · exact Or.inr ⟨seg', hs2, hd', rfl, hr'⟩
    · rw [if_neg hd]
      rw [ih _ x]
      constructor
      · rintro (h | ⟨seg', hs', hd', rfl, hr'⟩)
        · exact Or.inl h
        · exact Or.inr ⟨seg', List.mem_cons_of_mem seg hs', hd', rfl, hr'⟩
      · rintro (h | ⟨seg', hs', hd', rfl, hr'⟩)
        · exact Or.inl h
        · rcases List.mem_cons.mp hs' with rfl | hs2
          · exact absurd hd' hd
          · exact Or.inr ⟨seg', hs2, hd', rfl, hr'⟩

/-- C2 (amended): after `check_travel_conflicts` runs for a date, a
segment interval is flagged if and only if some travel segment of that
date has that interval and its half-open interval overlaps some
appointment range of the date (`seg_start < appt_end` and `seg_end >
appt_start`, pairwise over every appointment of the date).  Because the
method rebuilds `self.conflicting_segments` from scratch (line 1200),
this equivalence is exhaustive: window-violation flags set by the
recomputation step do not survive the overlap check. -/
theorem check_conflicts_overlap_iff (cfg : Config) (st : SchedState) (date : String)
    (x : String × Int × Int) :
    x ∈ (check_travel_conflicts cfg st date).2.conflicting_segments ↔
      ∃ seg, seg ∈ st.travel_segments ∧ seg.date = date ∧ x = (seg.date, seg.start, seg.stop) ∧
        ∃ r ∈ apptRanges cfg st.confirmed_appointments st.appointments date,
          seg.start < r.2 ∧ seg.stop > r.1 := by
  unfold check_travel_conflicts
  rw [checkFold_mem date _ st.travel_segments ([], []) x]
  simp

/-- Counterexample for C2 as stated: a reachable state where the
recomputation flags the `FROM_DEPOT` segment [07:30, 08:00) as a
window violation, and running the overlap check erases that flag. -/
theorem window_flag_lost :
    ("d", (450 : Int), (480 : Int)) ∈
      (recalculate_travel_times cfg8 ⟨[(("d", 480), "P")], [], [], []⟩ "d").conflicting_segments ∧
    ("d", (450 : Int), (480 : Int)) ∉
      (check_travel_conflicts cfg8
        (recalculate_travel_times cfg8 ⟨[(("d", 480), "P")], [], [], []⟩ "d")
        "d").2.conflicting_segments := by
  decide

/-- Counterexample for C8 as stated: after adding the 08:30-09:15
appointment the engine recomputes the date's segments, so no segment
[08:15, 09:00) exists any more and no conflict is flagged on it; the
flagged interval is the `BETWEEN` segment [09:15, 09:45). -/
theorem from_depot_scenario_cex :
    ((recalculate_travel_times cfg8 stB "d").travel_segments.filter
      (fun s => s.start == 495 && s.stop == 540)) = [] ∧
    (check_travel_conflicts cfg8 (recalculate_travel_times cfg8 stB "d")
      "d").2.conflicting_segments = [("d", 555, 585)] := by
  decide

/-- C8 amended: with one appointment `X` 09:00-10:00 and travel D-X of 45
minutes the engine produces `FROM_DEPOT` [08:15, 09:00) and `TO_DEPOT`
[10:00, 10:45) with no conflict.  After adding `Y` 08:30-09:15 the engine
recomputes: `FROM_DEPOT` becomes [08:00, 08:30) (depot to `Y` via the
30-minute fallback) and the reported conflict is the `BETWEEN` segment
[09:15, 09:45) overlapping appointment `X`. -/
theorem from_depot_scenario_amended :
    ((recalculate_travel_times cfg8 stA "d").travel_segments =
      [⟨"d", 495, 540, ⟨45, false, true⟩⟩, ⟨"d", 600, 645, ⟨45, true, false⟩⟩] ∧
     (check_travel_conflicts cfg8 (recalculate_travel_times cfg8 stA "d") "d").1 = [] ∧
     (check_travel_conflicts cfg8 (recalculate_travel_times cfg8 stA "d")
       "d").2.conflicting_segments = []) ∧
    ((recalculate_travel_times cfg8 stB "d").travel_segments =
      [⟨"d", 480, 510, ⟨30, false, true⟩⟩, ⟨"d", 555, 585, ⟨30, false, false⟩⟩,
       ⟨"d", 600, 645, ⟨45, true, false⟩⟩] ∧
     (check_travel_conflicts cfg8 (recalculate_travel_times cfg8 stB "d") "d").1 =
       [((555, 585), (540, 600))] ∧
     (check_travel_conflicts cfg8 (recalculate_travel_times cfg8 stB "d")
       "d").2.conflicting_segments = [("d", 555, 585)]) := by
  decide

lemma recalc_appointments (cfg : Config) (st : SchedState) (date : String) :
    (recalculate_travel_times cfg st date).appointments = st.appointments ∧
    (recalculate_travel_times cfg st date).confirmed_appointments = st.confirmed_appointments := by
  unfold recalculate_travel_times
  by_cases h : st.appointments.filter (fun kv => kv.1.1 = date) = [] <;> simp [h]

lemma check_appointments (cfg : Config) (st : SchedState) (date : String) :
    (check_travel_conflicts cfg st date).2.appointments = st.appointments ∧
    (check_travel_conflicts cfg st date).2.confirmed_appointments = st.confirmed_appointments ∧
    (check_travel_conflicts cfg st date).2.travel_segments = st.travel_segments :=
  ⟨rfl, rfl, rfl⟩

lemma dictMem_false_keys {k : CellKey} {l : List (CellKey × String)}
    (h : dictMem k l = false) : ∀ kv ∈ l, (kv.1 == k) = false := by
  unfold dictMem at h
  rw [List.any_eq_false] at h
  intro kv hkv
  simpa using h kv hkv

lemma dictInsert_absent {k : CellKey} {v : String} {l : List (CellKey × String)}
    (h : dictMem k l = false) : dictInsert k v l = l ++ [(k, v)] := by
  unfold dictInsert
  rw [h]
  rfl

lemma dictRemove_append {k : CellKey} {v : String} {l : List (CellKey × String)}
    (h : dictMem k l = false) : dictRemove k (l ++ [(k, v)]) = l := by
  unfold dictRemove
  rw [List.filter_append]
  have h1 : l.filter (fun kv => kv.1 != k) = l := by
    apply List.filter_eq_self.mpr
    intro kv hkv
    have := dictMem_false_keys h kv hkv
    simp [bne, this]
  have h2 : ([(k, v)] : List (CellKey × String)).filter (fun kv => kv.1 != k) = [] := by
    simp [bne]
  rw [h1, h2, List.append_nil]

lemma checkFold_append (date : String) (ranges : List (Int × Int)) (l1 l2 : List TravelSeg)
    (acc : List ((Int × Int) × (Int × Int)) × List (String × Int × Int)) :
    checkFold date ranges (l1 ++ l2) acc = checkFold date ranges l2 (checkFold date ranges l1 acc) := by
  unfold checkFold
  exact List.foldl_append _ _ l1 l2

lemma checkFold_skip (date : String) (ranges : List (Int × Int)) :
    ∀ (l : List TravelSeg)
      (acc : List ((Int × Int) × (Int × Int)) × List (String × Int × Int)),
      (∀ s ∈ l, s.date ≠ date) → checkFold date ranges l acc = acc := by
  intro l
  induction l with
  | nil => intro acc _; rfl
  | cons seg rest ih =>
    intro acc h
    unfold checkFold
    rw [List.foldl_cons, if_neg (h seg (List.mem_cons_self seg rest))]
    exact ih acc (fun s hs => h s (List.mem_cons_of_mem seg hs))

/-- The outcome of the speculative probe for one (date, slot), as a pure
function of the appointment dict and confirmed durations: the conflict
list the probe's `check_travel_conflicts` call returns. -/
def probeConflicts (cfg : Config) (conf : List (String × (String × Int × Int × Bool)))
    (appts : List (CellKey × String)) (pc : String) (date : String) (slot : Int) :
    List ((Int × Int) × (Int × Int)) :=
  let appts' := appts ++ [((date, slot), pc)]
  (checkFold date (apptRanges cfg conf appts' date)
    (newSegsFor cfg conf (sortByStart (appts'.filter (fun kv => kv.1.1 = date))) date)
    ([], [])).1

/-- The slot-availability decision of `get_available_slots` for one
(date, slot), as a pure function of the appointment dict and confirmed
durations. -/
def slot_available (cfg : Config) (conf : List (String × (String × Int × Int × Bool)))
    (appts : List (CellKey × String)) (pc : String) (date : String) (slot : Int) : Bool :=
  let slots := generate_time_slots cfg.start_hour cfg.end_hour
  let end_minutes := slot + cfg.duration
  if end_minutes.fdiv 60 > cfg.end_hour then false
  else if slots.any (fun other =>
      dictMem (date, other) appts && (decide (slot < other + 30) && decide (end_minutes > other))) then
    false
  else if dictMem (date, slot) appts then false
  else probeConflicts cfg conf appts pc date slot = []

lemma probe_step_spec (cfg : Config) (pc : String) (date : String) (slot : Int)
    (st : SchedState) :
    (probe_step cfg pc date slot st).1.appointments = st.appointments ∧
    (probe_step cfg pc date slot st).1.confirmed_appointments = st.confirmed_appointments ∧
    (probe_step cfg pc date slot st).2 =
      slot_available cfg st.confirmed_appointments st.appointments pc date slot := by
  unfold probe_step slot_available
  by_cases hwin : (slot + cfg.duration).fdiv 60 > cfg.end_hour
  · simp [hwin]
  · simp only [hwin, if_neg, if_false]
    by_cases hbusy : (generate_time_slots cfg.start_hour cfg.end_hour).any (fun other =>
        dictMem (date, other) st.appointments &&
        (decide (slot < other + 30) && decide (slot + cfg.duration > other))) = true
    · simp [hbusy]
    · simp only [Bool.not_eq_true] at hbusy
      simp only [hbusy, Bool.false_eq_true, if_false]
      by_cases hocc : dictMem (date, slot) st.appointments = true
      · simp [hocc]
      · simp only [Bool.not_eq_true] at hocc
        simp only [hocc, Bool.false_eq_true, if_false]
        have hins : dictInsert (date, slot) pc st.appointments =
            st.appointments ++ [((date, slot), pc)] := dictInsert_absent hocc
        set st1 : SchedState :=
          { st with appointments := dictInsert (date, slot) pc st.appointments } with hst1
        have h1a : st1.appointments = st.appointments ++ [((date, slot), pc)] := by
          rw [hst1, hins]
        have h1c : st1.confirmed_appointments = st.confirmed_appointments := rfl
        have h2 := recalc_appointments cfg st1 date
        have hfilter : st1.appointments.filter (fun kv => kv.1.1 = date) =
            st.appointments.filter (fun kv => kv.1.1 = date) ++ [((date, slot), pc)] := by
          rw [h1a, List.filter_append]
          simp
        have hne : st1.appointments.filter (fun kv => kv.1.1 = date) ≠ [] := by
          rw [hfilter]
          simp
        have hsegs : (recalculate_travel_times cfg st1 date).travel_segments =
            st1.travel_segments.filter (fun s => s.date ≠ date) ++
            newSegsFor cfg st1.confirmed_appointments
              (sortByStart (st1.appointments.filter (fun kv => kv.1.1 = date))) date := by
          unfold recalculate_travel_times
          rw [if_neg hne]
        have hkept : ∀ s ∈ st1.travel_segments.filter (fun s => s.date ≠ date), s.date ≠ date := by
          intro s hs
          have := List.of_mem_filter hs
          simpa using this
        refine ⟨?_, ?_, ?_⟩
        · show (dictRemove (date, slot)
            (check_travel_conflicts cfg (recalculate_travel_times cfg st1 date) date).2.appointments)
            = st.appointments
          rw [(check_appointments cfg _ date).1, h2.1, h1a]
          exact dictRemove_append hocc
        · show (recalculate_travel_times cfg st1 date).confirmed_appointments =
            st.confirmed_appointments
          rw [h2.2]
        · have hlist : (check_travel_conflicts cfg (recalculate_travel_times cfg st1 date) date).1 =
              probeConflicts cfg st.confirmed_appointments st.appointments pc date slot := by
            unfold check_travel_conflicts probeConflicts
            simp only
            rw [h2.1, h2.2, hsegs, checkFold_append,
              checkFold_skip date _ _ ([], []) hkept, h1a, h1c]
          show decide
              ((check_travel_conflicts cfg (recalculate_travel_times cfg st1 date) date).1 = []) =
            decide (probeConflicts cfg st.confirmed_appointments st.appointments pc date slot = [])
          rw [hlist]

/-- Pure specification of the availability search result: the grid
filtered by `slot_available`, as a function of the appointment dict and
confirmed durations at entry. -/
def availableSlotsPure (cfg : Config) (conf : List (String × (String × Int × Int × Bool)))
    (appts : List (CellKey × String)) (pc : String) (dates : List String) :
    List (String × Int) :=
  if pc = "" ∨ dates = [] then []
  else
    dates.flatMap (fun date =>
      ((generate_time_slots cfg.start_hour cfg.end_hour).filter
        (fun slot => slot_available cfg conf appts pc date slot)).map (fun slot => (date, slot)))

lemma slots_fold_spec (cfg : Config) (pc date : String) :
    ∀ (slots : List Int) (st : SchedState) (out : List (String × Int)),
      (slots.foldl (fun acc2 slot =>
        let r := probe_step cfg pc date slot acc2.1
        (r.1, if r.2 then acc2.2 ++ [(date, slot)] else acc2.2)) (st, out)).1.appointments
        = st.appointments ∧
      (slots.foldl (fun acc2 slot =>
        let r := probe_step cfg pc date slot acc2.1
        (r.1, if r.2 then acc2.2 ++ [(date, slot)] else acc2.2))
        (st, out)).1.confirmed_appointments = st.confirmed_appointments ∧
      (slots.foldl (fun acc2 slot =>
        let r := probe_step cfg pc date slot acc2.1
        (r.1, if r.2 then acc2.2 ++ [(date, slot)] else acc2.2)) (st, out)).2 =
        out ++ (slots.filter (fun slot =>
          slot_available cfg st.confirmed_appointments st.appointments pc date slot)).map
          (fun slot => (date, slot)) := by
  intro slots
  induction slots with
  | nil => intro st out; exact ⟨rfl, rfl, by simp⟩
  | cons slot rest ih =>
    intro st out
    rw [List.foldl_cons]
    have hp := probe_step_spec cfg pc date slot st
    have ih2 := ih (probe_step cfg pc date slot st).1
      (if (probe_step cfg pc date slot st).2 then out ++ [(date, slot)] else out)
    rw [hp.1, hp.2.1] at ih2
    refine ⟨ih2.1, ih2.2.1, ?_⟩
    rw [ih2.2.2, List.filter_cons]
    by_cases hav : slot_available cfg st.confirmed_appointments st.appointments pc date slot = true
    · rw [hp.2.2, hav]
      simp [hav]
    · simp only [Bool.not_eq_true] at hav
      rw [hp.2.2, hav]
      simp [hav]

lemma dates_fold_spec (cfg : Config) (pc : String) :
    ∀ (dates : List String) (st : SchedState) (out : List (String × Int)),
      (dates.foldl (fun acc date =>
        (generate_time_slots cfg.start_hour cfg.end_hour).foldl (fun acc2 slot =>
          let r := probe_step cfg pc date slot acc2.1
          (r.1, if r.2 then acc2.2 ++ [(date, slot)] else acc2.2)) acc)
        (st, out)).1.appointments = st.appointments ∧
      (dates.foldl (fun acc date =>
        (generate_time_slots cfg.start_hour cfg.end_hour).foldl (fun acc2 slot =>
          let r := probe_step cfg pc date slot acc2.1
          (r.1, if r.2 then acc2.2 ++ [(date, slot)] else acc2.2)) acc)
        (st, out)).1.confirmed_appointments = st.confirmed_appointments ∧
      (dates.foldl (fun acc date =>
        (generate_time_slots cfg.start_hour cfg.end_hour).foldl (fun acc2 slot =>
          let r := probe_step cfg pc date slot acc2.1
          (r.1, if r.2 then acc2.2 ++ [(date, slot)] else acc2.2)) acc)
        (st, out)).2 =
        out ++ dates.flatMap (fun date =>
          ((generate_time_slots cfg.start_hour cfg.end_hour).filter
            (fun slot => slot_available cfg st.confirmed_appointments st.appointments pc date slot)).map
            (fun slot => (date, slot))) := by
  intro dates
  induction dates with
  | nil => intro st out; exact ⟨rfl, rfl, by simp⟩
  | cons date rest ih =>
    intro st out
    rw [List.foldl_cons]
    have hs := slots_fold_spec cfg pc date (generate_time_slots cfg.start_hour cfg.end_hour) st out
    have hpair : ((generate_time_slots cfg.start_hour cfg.end_hour).foldl (fun acc2 slot =>
        let r := probe_step cfg pc date slot acc2.1
        (r.1, if r.2 then acc2.2 ++ [(date, slot)] else acc2.2)) (st, out)) =
        (((generate_time_slots cfg.start_hour cfg.end_hour).foldl (fun acc2 slot =>
          let r := probe_step cfg pc date slot acc2.1
          (r.1, if r.2 then acc2.2 ++ [(date, slot)] else acc2.2)) (st, out)).1,
         ((generate_time_slots cfg.start_hour cfg.end_hour).foldl (fun acc2 slot =>
          let r := probe_step cfg pc date slot acc2.1
          (r.1, if r.2 then acc2.2 ++ [(date, slot)] else acc2.2)) (st, out)).2) := rfl
    rw [hpair]
    have ih2 := ih ((generate_time_slots cfg.start_hour cfg.end_hour).foldl (fun acc2 slot =>
        let r := probe_step cfg pc date slot acc2.1
        (r.1, if r.2 then acc2.2 ++ [(date, slot)] else acc2.2)) (st, out)).1
      ((generate_time_slots cfg.start_hour cfg.end_hour).foldl (fun acc2 slot =>
        let r := probe_step cfg pc date slot acc2.1
        (r.1, if r.2 then acc2.2 ++ [(date, slot)] else acc2.2)) (st, out)).2
    rw [hs.1, hs.2.1] at ih2
    refine ⟨ih2.1, ih2.2.1, ?_⟩
    rw [ih2.2.2, hs.2.2, List.flatMap_cons, List.append_assoc]

lemma get_available_slots_spec (cfg : Config) (pc : String) (dates : List String)
    (st : SchedState) :
    (get_available_slots cfg pc dates st).1.appointments = st.appointments ∧
    (get_available_slots cfg pc dates st).1.confirmed_appointments = st.confirmed_appointments ∧
    (get_available_slots cfg pc dates st).2 =
      availableSlotsPure cfg st.confirmed_appointments st.appointments pc dates := by
  unfold get_available_slots availableSlotsPure
  by_cases h : pc = "" ∨ dates = []
  · simp [h]
  · rw [if_neg h, if_neg h]
    have hd := dates_fold_spec cfg pc dates st []
    exact ⟨hd.1, hd.2.1, by rw [hd.2.2, List.nil_append]⟩

/-- C6 amended: the availability probe exactly restores the appointment
set, and calling the search twice in a row returns identical results; but
(per the counterexample) the travel segments and conflict flags left
behind reflect the recomputation for the last speculatively probed slot
of each date rather than the pre-call state. -/
theorem slot_probe_partial_purity (cfg : Config) (pc : String) (dates : List String)
    (st : SchedState) :
    (get_available_slots cfg pc dates st).1.appointments = st.appointments ∧
    (get_available_slots cfg pc dates (get_available_slots cfg pc dates st).1).2 =
      (get_available_slots cfg pc dates st).2 := by
  have h1 := get_available_slots_spec cfg pc dates st
  have h2 := get_available_slots_spec cfg pc dates (get_available_slots cfg pc dates st).1
  exact ⟨h1.1, by rw [h2.2.2, h1.1, h1.2.1, ← h1.2.2]⟩

/-- Fixture for the C6 counterexample: empty schedule, window 08:00-09:00,
30-minute appointments, 30-minute fallback travel everywhere. -/
def cfg6 : Config := ⟨some "D", 8, 9, 30, fun a b => if a == b then 0 else 30⟩

/-- The empty starting state. -/
def stEmpty : SchedState := ⟨[], [], [], []⟩

/-- Counterexample for C6 as stated: after the availability search the
travel segments are not what they were before the call — the segments
recomputed for the last speculative insertion remain. -/
theorem probe_leaks_travel_state :
    (get_available_slots cfg6 "P" ["d1"] stEmpty).1.travel_segments ≠ stEmpty.travel_segments := by
  decide

lemma slot_available_window (cfg : Config) (conf : List (String × (String × Int × Int × Bool)))
    (appts : List (CellKey × String)) (pc : String) (date : String) (slot : Int)
    (h : slot_available cfg conf appts pc date slot = true) :
    (slot + cfg.duration).fdiv 60 ≤ cfg.end_hour := by
  by_contra hlt
  unfold slot_available at h
  rw [if_pos (by omega)] at h
  exact Bool.false_ne_true h

/-- C7 amended: every (date, slot) pair returned by the availability
search satisfies `(slot_start + duration) // 60 <= end_hour`, i.e.
`slot_start + duration < (end_hour + 1) * 60`: the appointment may end up
to 59 minutes past the working-window end `end_hour * 60`, because the
source compares whole hours (`end_minutes // 60 > self.end_hour`) rather
than minutes. -/
theorem offered_slot_fits_window (cfg : Config) (pc : String) (dates : List String)
    (st : SchedState) (date : String) (slot : Int)
    (h : (date, slot) ∈ (get_available_slots cfg pc dates st).2) :
    slot + cfg.duration < (cfg.end_hour + 1) * 60 := by
  rw [(get_available_slots_spec cfg pc dates st).2.2] at h
  unfold availableSlotsPure at h
  by_cases hpc : pc = "" ∨ dates = []
  · rw [if_pos hpc] at h
    cases h
  · rw [if_neg hpc] at h
    rcases List.mem_flatMap.mp h with ⟨date', _, hmem⟩
    rcases List.mem_map.mp hmem with ⟨slot', hslot', heq⟩
    have hsl : slot' = slot := (Prod.mk.injEq _ _ _ _ ▸ heq).2
    have hav : slot_available cfg st.confirmed_appointments st.appointments pc date' slot' = true :=
      List.of_mem_filter hslot'
    have hle := slot_available_window cfg st.confirmed_appointments st.appointments pc date' slot' hav
    rw [hsl] at hle
    have hlt := Int.lt_fdiv_add_one_mul_self (slot + cfg.duration) (b := 60) (by norm_num)
    have hmul : ((slot + cfg.duration).fdiv 60 + 1) * 60 ≤ (cfg.end_hour + 1) * 60 := by
      have : (slot + cfg.duration).fdiv 60 + 1 ≤ cfg.end_hour + 1 := by omega
      exact mul_le_mul_of_nonneg_right this (by norm_num)
    omega

/-- Fixture for the C7 counterexample: window 08:00-10:00, 60-minute
appointments. -/
def cfg7 : Config := ⟨some "D", 8, 10, 60, fun a b => if a == b then 0 else 30⟩

/-- Counterexample for C7 as stated: the 09:30 slot is offered although a
60-minute appointment there ends at 10:30, past the 10:00 working-window
end. -/
theorem offered_slot_past_window :
    ("d1", (570 : Int)) ∈ (get_available_slots cfg7 "P" ["d1"] stEmpty).2 ∧
    (570 : Int) + cfg7.duration > cfg7.end_hour * 60 := by
  decide

/-- Witness for the amended C7 at the concrete fixture. -/
theorem offered_slot_fits_window_witness :
    (570 : Int) + cfg7.duration < (cfg7.end_hour + 1) * 60 :=
  offered_slot_fits_window cfg7 "P" ["d1"] stEmpty "d1" 570 (by decide)

end SchedulerEngine

namespace Clustering

/-!
Embedding of `tsp_clustering_app.balance_clusters` (lines 937-1153).

The partition is `labels : List ℕ` (the numpy label array, one entry per
coordinate row); `min_size = 3` is hard-coded in the source (line 942).
All floating-point geometry is passed in as function parameters, since it
enters the algorithm only through the discrete decisions it produces:

* `close i j`  — `np.linalg.norm(coords[i] - coords[j]) < proximity_threshold`
  (the threshold is the fixed 10th percentile of the pairwise distances,
  lines 946-953);
* `hullsAny labels` — `check_convex_hulls_overlap(coords, labels, n)`;
* `hullOv labels i j` — the hull construction plus
  `poly_i.intersects(poly_j) and not poly_i.touches(poly_j)` test for the
  pair (i, j), `false` also covering the swallowed `except` (lines
  1043-1067);
* `pickFrom labels largest c` — the index in the largest cluster closest
  to cluster `c`'s centroid (or to the random fallback centroid),
  lines 1005-1017;
* `pickV labels i j` — the hull vertex of cluster `i` nearest cluster
  `j`'s centroid, lines 1051-1061;
* `outlierOf labels c` — the member of cluster `c` furthest from its
  centroid, lines 1091-1098;
* `bestFor labels c` — the `best_cluster` of lines 1100-1116 (`none` when
  no other centroid is close enough).

The selection oracles always return an index lying in the cluster they
select from; that fact is the `H…` hypothesis of each theorem, and any
concrete instantiation (see the witness) satisfies it.
-/

/-- `np.sum(labels == c)`. -/
def countLabel (labels : List ℕ) (c : ℕ) : ℕ := labels.count c

/-- `labels[i] = c`. -/
def setLabel (labels : List ℕ) (i c : ℕ) : List ℕ := labels.set i c

/-- The index pairs of `for i in range(n): for j in range(i+1, n)`. -/
def pairsFrom (n : ℕ) : List (ℕ × ℕ) :=
  (List.range n).flatMap (fun i => ((List.range n).filter (fun j => i < j)).map (fun j => (i, j)))

/-- One step of the proximity sweep (lines 972-988): if the pair is in
different clusters and closer than the threshold, move the member of the
larger cluster (first branch needs the larger side strictly above
`min_size`, the second only `>=`), counting the fix. -/
def proxStep (close : ℕ → ℕ → Bool) (minSize : ℕ) (st : List ℕ × ℕ) (p : ℕ × ℕ) :
    List ℕ × ℕ :=
  let labels := st.1
  let li := labels.getD p.1 0
  let lj := labels.getD p.2 0
  if li ≠ lj ∧ close p.1 p.2 then
    let si := countLabel labels li
    let sj := countLabel labels lj
    if si > sj ∧ si > minSize then (setLabel labels p.1 lj, st.2 + 1)
    else if sj ≥ minSize then (setLabel labels p.2 li, st.2 + 1)
    else st
  else st

/-- The proximity iteration (lines 968-991): sweep all pairs, stop when a
sweep fixes nothing or after the iteration cap. -/
def proxLoop (close : ℕ → ℕ → Bool) (minSize : ℕ) : ℕ → List ℕ → List ℕ
  | 0, labels => labels
  | fuel + 1, labels =>
    let r := (pairsFrom labels.length).foldl (proxStep close minSize) (labels, 0)
    if r.2 = 0 then r.1 else proxLoop close minSize fuel r.1

/-- `max_proximity_iterations = 100` (line 968). -/
def proximityPass (close : ℕ → ℕ → Bool) (minSize : ℕ) (labels : List ℕ) : List ℕ :=
  proxLoop close minSize 100 labels

/-- `[np.sum(labels == i) for i in range(n_clusters)]` (line 999). -/
def sizesList (labels : List ℕ) (n : ℕ) : List ℕ :=
  (List.range n).map (fun c => countLabel labels c)

/-- `np.max` over a nonempty ℕ list (0 on the empty list). -/
def listMax (l : List ℕ) : ℕ := l.foldl max 0

/-- `np.argmax`: the first index attaining the maximum. -/
def argmaxIdx (l : List ℕ) : ℕ := l.findIdx (fun x => x = listMax l)

/-- The `while` loop of the minimum-size enforcement for one cluster
(lines 998-1019): while the cluster is undersized, stop if even the
largest cluster is at or below `min_size`, otherwise pull the member of
the largest cluster `pickFrom` selects.  The source loop is unbounded but
adds one member per iteration, so `min_size + 1` rounds of fuel always
suffice. -/
def sizeFix (pickFrom : List ℕ → ℕ → ℕ → ℕ) (n minSize c : ℕ) : ℕ → List ℕ → List ℕ
  | 0, labels => labels
  | fuel + 1, labels =>
    if countLabel labels c < minSize then
      let sizes := sizesList labels n
      let largest := argmaxIdx sizes
      if sizes.getD largest 0 ≤ minSize then labels
      else sizeFix pickFrom n minSize c fuel (setLabel labels (pickFrom labels largest c) c)
    else labels

/-- The minimum-size enforcement over all clusters (lines 996-1019). -/
def sizePass (pickFrom : List ℕ → ℕ → ℕ → ℕ) (n minSize : ℕ) (labels : List ℕ) : List ℕ :=
  (List.range n).foldl (fun lab c => sizeFix pickFrom n minSize c (minSize + 1) lab) labels

/-- The inner `j` scan of the overlap-resolution sweep (lines 1033-1065):
skip pairs where either side is at or below `min_size`, and move at the
first `j` whose hulls (both clusters having at least 3 points) genuinely
overlap. -/
def findMoveJ (hullOv : List ℕ → ℕ → ℕ → Bool) (minSize : ℕ) (labels : List ℕ) (i : ℕ) :
    List ℕ → Option ℕ
  | [] => none
  | j :: rest =>
    if countLabel labels i ≤ minSize ∨ countLabel labels j ≤ minSize then
      findMoveJ hullOv minSize labels i rest
    else if 3 ≤ countLabel labels i ∧ 3 ≤ countLabel labels j ∧ hullOv labels i j then some j
    else findMoveJ hullOv minSize labels i rest

/-- One overlap-resolution sweep over all `i` (lines 1032-1067): per `i`,
perform at most one move (the `break` after `labels[closest_hull_idx] = j`). -/
def overlapSweep (hullOv : List ℕ → ℕ → ℕ → Bool) (pickV : List ℕ → ℕ → ℕ → ℕ)
    (minSize n : ℕ) (labels : List ℕ) : List ℕ :=
  (List.range n).foldl
    (fun lab i =>
      match findMoveJ hullOv minSize lab i ((List.range n).filter (fun j => i < j)) with
      | some j => setLabel lab (pickV lab i j) j
      | none => lab)
    labels

/-- The overlap-resolution iteration (lines 1023-1067): stop as soon as no
hulls overlap, cap at 100 sweeps. -/
def overlapLoop (hullsAny : List ℕ → Bool) (hullOv : List ℕ → ℕ → ℕ → Bool)
    (pickV : List ℕ → ℕ → ℕ → ℕ) (minSize n : ℕ) : ℕ → List ℕ → List ℕ
  | 0, labels => labels
  | fuel + 1, labels =>
    if hullsAny labels then
      overlapLoop hullsAny hullOv pickV minSize n fuel (overlapSweep hullOv pickV minSize n labels)
    else labels

/-- `max_overlap_iterations = 100` (line 1023). -/
def overlapPass (hullsAny : List ℕ → Bool) (hullOv : List ℕ → ℕ → ℕ → Bool)
    (pickV : List ℕ → ℕ → ℕ → ℕ) (minSize n : ℕ) (labels : List ℕ) : List ℕ :=
  overlapLoop hullsAny hullOv pickV minSize n 100 labels

/-- One compactness sweep (lines 1080-1120): skip clusters at or below
`min_size`; otherwise, when `bestFor` names a closer sibling centroid for
the cluster's outlier, reassign the outlier and record the improvement. -/
def compactSweep (outlierOf : List ℕ → ℕ → ℕ) (bestFor : List ℕ → ℕ → Option ℕ)
    (minSize n : ℕ) (st : List ℕ × Bool) : List ℕ × Bool :=
  (List.range n).foldl
    (fun acc c =>
      if countLabel acc.1 c ≤ minSize then acc
      else
        match bestFor acc.1 c with
        | some b => (setLabel acc.1 (outlierOf acc.1 c) b, true)
        | none => acc)
    st

/-- The compactness iteration (lines 1077-1123): stop after a sweep with
no improvement, cap at 50 sweeps. -/
def compactLoop (outlierOf : List ℕ → ℕ → ℕ) (bestFor : List ℕ → ℕ → Option ℕ)
    (minSize n : ℕ) : ℕ → List ℕ → List ℕ
  | 0, labels => labels
  | fuel + 1, labels =>
    let r := compactSweep outlierOf bestFor minSize n (labels, false)
    if r.2 then compactLoop outlierOf bestFor minSize n fuel r.1 else r.1

/-- `max_compactness_iterations = 50` (line 1076). -/
def compactPass (outlierOf : List ℕ → ℕ → ℕ) (bestFor : List ℕ → ℕ → Option ℕ)
    (minSize n : ℕ) (labels : List ℕ) : List ℕ :=
  compactLoop outlierOf bestFor minSize n 50 labels

/-- Embedding of `balance_clusters` (lines 937-1153) on the label array:
initial labels come from the hierarchical clustering (a parameter, like
the geometry), then the proximity pass, the minimum-size pass, the
overlap-resolution pass and the compactness pass run in that order with
the hard-coded `min_size = 3`.  The final per-cluster metric computation
(lines 1127-1151) does not modify `labels` and is the `intraSum` sums of
this file. -/
def balance_clusters (close : ℕ → ℕ → Bool) (hullsAny : List ℕ → Bool)
    (hullOv : List ℕ → ℕ → ℕ → Bool) (pickV : List ℕ → ℕ → ℕ → ℕ)
    (pickFrom : List ℕ → ℕ → ℕ → ℕ) (outlierOf : List ℕ → ℕ → ℕ)
    (bestFor : List ℕ → ℕ → Option ℕ) (n : ℕ) (labels0 : List ℕ) : List ℕ :=
  compactPass outlierOf bestFor 3 n
    (overlapPass hullsAny hullOv pickV 3 n
      (sizePass pickFrom n 3
        (proximityPass close 3 labels0)))

lemma countLabel_setLabel (labels : List ℕ) (i v c : ℕ) (hi : i < labels.length) :
    countLabel (setLabel labels i v) c + (if labels.getD i 0 = c then 1 else 0) =
    countLabel labels c + (if v = c then 1 else 0) := by
  unfold countLabel setLabel
  rw [List.count_set v c labels i hi, List.getD_eq_getElem labels 0 hi]
  have hmem : labels[i] ∈ labels := List.getElem_mem hi
  by_cases h1 : labels[i] = c
  · have hpos : 0 < labels.count c := List.count_pos_iff.mpr (h1 ▸ hmem)
    by_cases h2 : v = c <;> simp [h1, h2] <;> omega
  · by_cases h2 : v = c <;> simp [h1, h2]

lemma move_preserves_ge {minSize : ℕ} (labels : List ℕ) (idx src tgt : ℕ)
    (hidx : idx < labels.length) (hold : labels.getD idx 0 = src)
    (hsrc : minSize < countLabel labels src) :
    ∀ c, minSize ≤ countLabel labels c → minSize ≤ countLabel (setLabel labels idx tgt) c := by
  intro c hc
  have hkey := countLabel_setLabel labels idx tgt c hidx
  rw [hold] at hkey
  by_cases h1 : src = c
  · subst h1
    by_cases h2 : tgt = src
    · subst h2
      simp at hkey
      omega
    · rw [if_pos rfl, if_neg h2] at hkey
      omega
  · by_cases h2 : tgt = c
    · subst h2
      rw [if_neg h1, if_pos rfl] at hkey
      omega
    · rw [if_neg h1, if_neg h2] at hkey
      omega

lemma foldl_max_le : ∀ (l : List ℕ) (acc : ℕ),
    acc ≤ l.foldl max acc ∧ ∀ x ∈ l, x ≤ l.foldl max acc := by
  intro l
  induction l with
  | nil => intro acc; exact ⟨le_refl _, by simp⟩
  | cons a rest ih =>
    intro acc
    constructor
    · exact le_trans (le_max_left acc a) (ih (max acc a)).1
    · intro x hx
      rcases List.mem_cons.mp hx with rfl | hx2
      · exact le_trans (le_max_right acc x) (ih (max acc x)).1
      · exact (ih (max acc a)).2 x hx2

lemma foldl_max_mem : ∀ (l : List ℕ) (acc : ℕ), l.foldl max acc = acc ∨ l.foldl max acc ∈ l := by
  intro l
  induction l with
  | nil => intro acc; exact Or.inl rfl
  | cons a rest ih =>
    intro acc
    rw [List.foldl_cons]
    rcases ih (max acc a) with h | h
    · rw [h]
      rcases Nat.le_total acc a with hle | hle
      · right
        rw [max_eq_right hle]
        exact List.mem_cons_self a rest
      · left
        exact max_eq_left hle
    · right
      exact List.mem_cons_of_mem a h

lemma listMax_mem (l : List ℕ) (h : l ≠ []) : listMax l ∈ l := by
  unfold listMax
  rcases foldl_max_mem l 0 with h0 | h0
  · match l, h with
    | a :: rest, _ =>
      have ha : a ≤ (a :: rest).foldl max 0 := (foldl_max_le (a :: rest) 0).2 a
        (List.mem_cons_self a rest)
      rw [h0] at ha
      have : a = 0 := Nat.le_zero.mp ha
      rw [h0, ← this]
      exact List.mem_cons_self a rest
  · exact h0

lemma argmaxIdx_lt (l : List ℕ) (h : l ≠ []) : argmaxIdx l < l.length :=
  List.findIdx_lt_length_of_exists ⟨listMax l, listMax_mem l h, by simp⟩

lemma getD_argmaxIdx (l : List ℕ) (h : l ≠ []) : l.getD (argmaxIdx l) 0 = listMax l := by
  have hlt := argmaxIdx_lt l h
  rw [List.getD_eq_getElem l 0 hlt]
  have hp := List.findIdx_getElem (w := hlt)
  simpa using hp

lemma le_getD_argmaxIdx (l : List ℕ) (h : l ≠ []) : ∀ x ∈ l, x ≤ l.getD (argmaxIdx l) 0 := by
  intro x hx
  rw [getD_argmaxIdx l h]
  exact (foldl_max_le l 0).2 x hx

lemma sizesList_length (labels : List ℕ) (n : ℕ) : (sizesList labels n).length = n := by
  simp [sizesList]

lemma sizesList_getD (labels : List ℕ) (n c : ℕ) (hc : c < n) :
    (sizesList labels n).getD c 0 = countLabel labels c := by
  unfold sizesList
  rw [List.getD_eq_getElem _ 0 (by simp [hc])]
  simp

lemma sum_countLabel (labels : List ℕ) (n : ℕ) (h : ∀ x ∈ labels, x < n) :
    ∑ c ∈ Finset.range n, countLabel labels c = labels.length := by
  induction labels with
  | nil => simp [countLabel]
  | cons a rest ih =>
    have ha : a < n := h a (List.mem_cons_self a rest)
    have hrest : ∀ x ∈ rest, x < n := fun x hx => h x (List.mem_cons_of_mem a hx)
    have hcc : ∀ c, countLabel (a :: rest) c = countLabel rest c + (if c = a then 1 else 0) := by
      intro c
      unfold countLabel
      rw [List.count_cons]
      simp only [beq_iff_eq, Nat.add_right_cancel_iff]
      by_cases hca : c = a
      · simp [hca]
      · rw [if_neg hca, if_neg (fun h => hca h.symm)]
    calc ∑ c ∈ Finset.range n, countLabel (a :: rest) c
        = ∑ c ∈ Finset.range n, (countLabel rest c + if c = a then 1 else 0) :=
          Finset.sum_congr rfl (fun c _ => hcc c)
      _ = (∑ c ∈ Finset.range n, countLabel rest c) +
          ∑ c ∈ Finset.range n, (if c = a then 1 else 0) := Finset.sum_add_distrib
      _ = rest.length + 1 := by
          rw [ih hrest, Finset.sum_ite_eq' (Finset.range n) a (fun _ => 1),
            if_pos (Finset.mem_range.mpr ha)]
      _ = (a :: rest).length := by simp

lemma exists_gt_minSize (labels : List ℕ) (n minSize c0 : ℕ)
    (hlen : n * minSize ≤ labels.length) (hvals : ∀ x ∈ labels, x < n)
    (hc0 : c0 < n) (hsmall : countLabel labels c0 < minSize) :
    ∃ c1, c1 < n ∧ minSize < countLabel labels c1 := by
  by_contra hno
  push_neg at hno
  have hsum := sum_countLabel labels n hvals
  have hlt : ∑ c ∈ Finset.range n, countLabel labels c <
      ∑ _c ∈ Finset.range n, minSize :=
    Finset.sum_lt_sum (fun i hi => hno i (Finset.mem_range.mp hi))
      ⟨c0, Finset.mem_range.mpr hc0, hsmall⟩
  rw [Finset.sum_const, Finset.card_range, smul_eq_mul] at hlt
  omega

/-- Any property preserved by the step function on list members is
preserved by `foldl`. -/
lemma foldl_preserve_mem {α β : Type} (P : β → Prop) (f : β → α → β) (l : List α)
    (hf : ∀ b, ∀ a ∈ l, P b → P (f b a)) : ∀ b, P b → P (l.foldl f b) := by
  induction l with
  | nil => intro b hb; exact hb
  | cons a rest ih =>
    intro b hb
    exact ih (fun b' a' ha' hb' => hf b' a' (List.mem_cons_of_mem a ha') hb') _
      (hf b a (List.mem_cons_self a rest) hb)

lemma pairsFrom_mem (n : ℕ) (p : ℕ × ℕ) (h : p ∈ pairsFrom n) : p.1 < n ∧ p.2 < n := by
  unfold pairsFrom at h
  rcases List.mem_flatMap.mp h with ⟨i, hi, hmem⟩
  rcases List.mem_map.mp hmem with ⟨j, hj, rfl⟩
  exact ⟨List.mem_range.mp hi, List.mem_range.mp (List.mem_filter.mp hj).1⟩

lemma setLabel_vals {n : ℕ} (labels : List ℕ) (i v : ℕ) (hv : v < n)
    (h : ∀ x ∈ labels, x < n) : ∀ x ∈ setLabel labels i v, x < n := by
  intro x hx
  rcases List.mem_or_eq_of_mem_set hx with h2 | rfl
  · exact h x h2
  · exact hv

lemma getD_mem_of_lt (labels : List ℕ) (i : ℕ) (hi : i < labels.length) :
    labels.getD i 0 ∈ labels := by
  rw [List.getD_eq_getElem labels 0 hi]
  exact List.getElem_mem hi

lemma proxStep_len_vals {n : ℕ} (close : ℕ → ℕ → Bool) (minSize : ℕ)
    (st : List ℕ × ℕ) (p : ℕ × ℕ)
    (hp1 : p.1 < st.1.length) (hp2 : p.2 < st.1.length)
    (h : ∀ x ∈ st.1, x < n) :
    (proxStep close minSize st p).1.length = st.1.length ∧
    (∀ x ∈ (proxStep close minSize st p).1, x < n) := by
  unfold proxStep
  by_cases hcl : st.1.getD p.1 0 ≠ st.1.getD p.2 0 ∧ close p.1 p.2
  · rw [if_pos hcl]
    by_cases hb1 : countLabel st.1 (st.1.getD p.1 0) > countLabel st.1 (st.1.getD p.2 0) ∧
        countLabel st.1 (st.1.getD p.1 0) > minSize
    · rw [if_pos hb1]
      exact ⟨List.length_set .., setLabel_vals st.1 p.1 _ (h _ (getD_mem_of_lt st.1 p.2 hp2)) h⟩
    · rw [if_neg hb1]
      by_cases hb2 : countLabel st.1 (st.1.getD p.2 0) ≥ minSize
      · rw [if_pos hb2]
        exact ⟨List.length_set .., setLabel_vals st.1 p.2 _ (h _ (getD_mem_of_lt st.1 p.1 hp1)) h⟩
      · rw [if_neg hb2]
        exact ⟨rfl, h⟩
  · rw [if_neg hcl]
    exact ⟨rfl, h⟩

lemma proxLoop_len_vals {n : ℕ} (close : ℕ → ℕ → Bool) (minSize : ℕ) :
    ∀ (fuel : ℕ) (labels : List ℕ), (∀ x ∈ labels, x < n) →
      (proxLoop close minSize fuel labels).length = labels.length ∧
      ∀ x ∈ proxLoop close minSize fuel labels, x < n := by
  intro fuel
  induction fuel with
  | zero => intro labels h; exact ⟨rfl, h⟩
  | succ fuel ih =>
    intro labels h
    have hsweep := foldl_preserve_mem
      (fun (st : List ℕ × ℕ) => st.1.length = labels.length ∧ ∀ x ∈ st.1, x < n)
      (proxStep close minSize) (pairsFrom labels.length)
      (fun st p hp hst => by
        have hb := pairsFrom_mem labels.length p hp
        have := proxStep_len_vals close minSize st p (hst.1 ▸ hb.1) (hst.1 ▸ hb.2) hst.2
        exact ⟨this.1.trans hst.1, this.2⟩)
      (labels, 0) ⟨rfl, h⟩
    simp only [proxLoop]
    by_cases hz : ((pairsFrom labels.length).foldl (proxStep close minSize) (labels, 0)).2 = 0
    · rw [if_pos hz]
      exact hsweep
    · rw [if_neg hz]
      have := ih ((pairsFrom labels.length).foldl (proxStep close minSize) (labels, 0)).1 hsweep.2
      exact ⟨this.1.trans hsweep.1, this.2⟩

lemma sizeFix_spec (pickFrom : List ℕ → ℕ → ℕ → ℕ) (n minSize c : ℕ)
    (Hpick : ∀ labels largest tgt, 0 < countLabel labels largest →
      pickFrom labels largest tgt < labels.length ∧
      labels.getD (pickFrom labels largest tgt) 0 = largest)
    (hc : c < n) :
    ∀ (fuel : ℕ) (labels : List ℕ), (∀ x ∈ labels, x < n) → n * minSize ≤ labels.length →
      minSize < countLabel labels c + fuel →
      (∀ x ∈ sizeFix pickFrom n minSize c fuel labels, x < n) ∧
      (sizeFix pickFrom n minSize c fuel labels).length = labels.length ∧
      minSize ≤ countLabel (sizeFix pickFrom n minSize c fuel labels) c ∧
      (∀ c', minSize ≤ countLabel labels c' →
        minSize ≤ countLabel (sizeFix pickFrom n minSize c fuel labels) c') := by
  intro fuel
  induction fuel with
  | zero =>
    intro labels hv hl hf
    have h0 : sizeFix pickFrom n minSize c 0 labels = labels := rfl
    rw [h0]
    exact ⟨hv, rfl, by omega, fun c' h' => h'⟩
  | succ fuel ih =>
    intro labels hv hl hf
    by_cases hsm : countLabel labels c < minSize
    · obtain ⟨c1, hc1n, hc1⟩ := exists_gt_minSize labels n minSize c hl hv hc hsm
      have hne : sizesList labels n ≠ [] := by
        intro h0
        have hlen0 := sizesList_length labels n
        rw [h0] at hlen0
        simp at hlen0
        omega
      have hmaxge : countLabel labels c1 ≤
          (sizesList labels n).getD (argmaxIdx (sizesList labels n)) 0 := by
        have hmem : countLabel labels c1 ∈ sizesList labels n := by
          rw [← sizesList_getD labels n c1 hc1n]
          exact getD_mem_of_lt _ c1 (by rw [sizesList_length]; exact hc1n)
        exact le_getD_argmaxIdx _ hne _ hmem
      have hguard : ¬ (sizesList labels n).getD (argmaxIdx (sizesList labels n)) 0 ≤ minSize := by
        omega
      have hlargest_n : argmaxIdx (sizesList labels n) < n := by
        have := argmaxIdx_lt _ hne
        rwa [sizesList_length] at this
      have hcount_largest : countLabel labels (argmaxIdx (sizesList labels n)) =
          (sizesList labels n).getD (argmaxIdx (sizesList labels n)) 0 :=
        (sizesList_getD labels n _ hlargest_n).symm
      have hbig : minSize < countLabel labels (argmaxIdx (sizesList labels n)) := by omega
      have hLpos : 0 < countLabel labels (argmaxIdx (sizesList labels n)) := by omega
      obtain ⟨hidx, hold⟩ := Hpick labels (argmaxIdx (sizesList labels n)) c hLpos
      have hlc : argmaxIdx (sizesList labels n) ≠ c := by
        intro he
        rw [he] at hbig
        omega
      have hkey := countLabel_setLabel labels
        (pickFrom labels (argmaxIdx (sizesList labels n)) c) c c hidx
      rw [hold, if_neg hlc, if_pos rfl] at hkey
      have hv' : ∀ x ∈ setLabel labels (pickFrom labels (argmaxIdx (sizesList labels n)) c) c,
          x < n := setLabel_vals labels _ c hc hv
      have hlen' : (setLabel labels (pickFrom labels (argmaxIdx (sizesList labels n)) c) c).length
          = labels.length := List.length_set labels _ _
      have hrec := ih (setLabel labels (pickFrom labels (argmaxIdx (sizesList labels n)) c) c)
        hv' (by rw [hlen']; exact hl) (by omega)
      have hstep : sizeFix pickFrom n minSize c (fuel + 1) labels =
          sizeFix pickFrom n minSize c fuel
            (setLabel labels (pickFrom labels (argmaxIdx (sizesList labels n)) c) c) := by
        simp only [sizeFix]
        rw [if_pos hsm, if_neg hguard]
      rw [hstep]
      refine ⟨hrec.1, ?_, hrec.2.2.1, ?_⟩
      · rw [hrec.2.1, hlen']
      · intro c' h'
        exact hrec.2.2.2 c'
          (move_preserves_ge labels _ (argmaxIdx (sizesList labels n)) c hidx hold
            (by omega) c' h')
    · have hstop : sizeFix pickFrom n minSize c (fuel + 1) labels = labels := by
        simp only [sizeFix]
        rw [if_neg hsm]
      rw [hstop]
      exact ⟨hv, rfl, by omega, fun c' h' => h'⟩

lemma sizePass_fold (pickFrom : List ℕ → ℕ → ℕ → ℕ) (n minSize : ℕ)
    (Hpick : ∀ labels largest tgt, 0 < countLabel labels largest →
      pickFrom labels largest tgt < labels.length ∧
      labels.getD (pickFrom labels largest tgt) 0 = largest) :
    ∀ (cs : List ℕ) (labels : List ℕ), (∀ c ∈ cs, c < n) → (∀ x ∈ labels, x < n) →
      n * minSize ≤ labels.length →
      (∀ x ∈ cs.foldl (fun lab c => sizeFix pickFrom n minSize c (minSize + 1) lab) labels,
        x < n) ∧
      (cs.foldl (fun lab c => sizeFix pickFrom n minSize c (minSize + 1) lab) labels).length =
        labels.length ∧
      (∀ c ∈ cs, minSize ≤ countLabel
        (cs.foldl (fun lab c => sizeFix pickFrom n minSize c (minSize + 1) lab) labels) c) ∧
      (∀ c', minSize ≤ countLabel labels c' → minSize ≤ countLabel
        (cs.foldl (fun lab c => sizeFix pickFrom n minSize c (minSize + 1) lab) labels) c') := by
  intro cs
  induction cs with
  | nil =>
    intro labels _ hv hl
    exact ⟨hv, rfl, by simp, fun c' h' => h'⟩
  | cons c cs' ih =>
    intro labels hcs hv hl
    have hc : c < n := hcs c (List.mem_cons_self c cs')
    have h1 := sizeFix_spec pickFrom n minSize c Hpick hc (minSize + 1) labels hv hl (by omega)
    have ih2 := ih (sizeFix pickFrom n minSize c (minSize + 1) labels)
      (fun c2 hc2 => hcs c2 (List.mem_cons_of_mem c hc2)) h1.1 (by rw [h1.2.1]; exact hl)
    rw [List.foldl_cons]
    refine ⟨ih2.1, by rw [ih2.2.1, h1.2.1], ?_, ?_⟩
    · intro c2 hc2
      rcases List.mem_cons.mp hc2 with rfl | hc3
      · exact ih2.2.2.2 c2 h1.2.2.1
      · exact ih2.2.2.1 c2 hc3
    · intro c' h'
      exact ih2.2.2.2 c' (h1.2.2.2 c' h')

lemma findMoveJ_some (hullOv : List ℕ → ℕ → ℕ → Bool) (minSize : ℕ) (labels : List ℕ)
    (i : ℕ) : ∀ (js : List ℕ) (j : ℕ),
      findMoveJ hullOv minSize labels i js = some j → minSize < countLabel labels i := by
  intro js
  induction js with
  | nil => intro j h; cases h
  | cons j0 rest ih =>
    intro j h
    simp only [findMoveJ] at h
    by_cases hA : countLabel labels i ≤ minSize ∨ countLabel labels j0 ≤ minSize
    · rw [if_pos hA] at h
      exact ih j h
    · push_neg at hA
      exact hA.1
  
lemma overlapSweep_pres (hullOv : List ℕ → ℕ → ℕ → Bool) (pickV : List ℕ → ℕ → ℕ → ℕ)
    (minSize n : ℕ)
    (HpickV : ∀ labels i j, 0 < countLabel labels i →
      pickV labels i j < labels.length ∧ labels.getD (pickV labels i j) 0 = i)
    (labels : List ℕ) (hinv : ∀ c, c < n → minSize ≤ countLabel labels c) :
    ∀ c, c < n → minSize ≤ countLabel (overlapSweep hullOv pickV minSize n labels) c := by
  have := foldl_preserve (fun lab => ∀ c, c < n → minSize ≤ countLabel lab c)
    (fun lab i =>
      match findMoveJ hullOv minSize lab i ((List.range n).filter (fun j => i < j)) with
      | some j => setLabel lab (pickV lab i j) j
      | none => lab)
    (fun lab i hlab => by
      rcases hj : findMoveJ hullOv minSize lab i ((List.range n).filter (fun j => i < j)) with
        _ | j
      · simpa [hj] using hlab
      · have hbig := findMoveJ_some hullOv minSize lab i _ j hj
        obtain ⟨hidx, hold⟩ := HpickV lab i j (by omega)
        simp only [hj]
        intro c hcn
        exact move_preserves_ge lab _ i j hidx hold hbig c (hlab c hcn))
    (List.range n) labels hinv
  exact this

lemma overlapLoop_pres (hullsAny : List ℕ → Bool) (hullOv : List ℕ → ℕ → ℕ → Bool)
    (pickV : List ℕ → ℕ → ℕ → ℕ) (minSize n : ℕ)
    (HpickV : ∀ labels i j, 0 < countLabel labels i →
      pickV labels i j < labels.length ∧ labels.getD (pickV labels i j) 0 = i) :
    ∀ (fuel : ℕ) (labels : List ℕ), (∀ c, c < n → minSize ≤ countLabel labels c) →
      ∀ c, c < n → minSize ≤ countLabel (overlapLoop hullsAny hullOv pickV minSize n fuel labels) c := by
  intro fuel
  induction fuel with
  | zero => intro labels h; exact h
  | succ fuel ih =>
    intro labels h
    simp only [overlapLoop]
    by_cases ho : hullsAny labels = true
    · rw [if_pos ho]
      exact ih _ (overlapSweep_pres hullOv pickV minSize n HpickV labels h)
    · simp only [Bool.not_eq_true] at ho
      rw [ho, if_neg (by simp)]
      exact h

lemma compactSweep_pres (outlierOf : List ℕ → ℕ → ℕ) (bestFor : List ℕ → ℕ → Option ℕ)
    (minSize n : ℕ)
    (Houtlier : ∀ labels c, 0 < countLabel labels c →
      outlierOf labels c < labels.length ∧ labels.getD (outlierOf labels c) 0 = c)
    (st : List ℕ × Bool) (hinv : ∀ c, c < n → minSize ≤ countLabel st.1 c) :
    ∀ c, c < n → minSize ≤ countLabel (compactSweep outlierOf bestFor minSize n st).1 c := by
  have := foldl_preserve (fun (acc : List ℕ × Bool) => ∀ c, c < n → minSize ≤ countLabel acc.1 c)
    (fun acc c =>
      if countLabel acc.1 c ≤ minSize then acc
      else
        match bestFor acc.1 c with
        | some b => (setLabel acc.1 (outlierOf acc.1 c) b, true)
        | none => acc)
    (fun acc c hacc => by
      by_cases hsm : countLabel acc.1 c ≤ minSize
      · simpa [hsm] using hacc
      · push_neg at hsm
        rcases hb : bestFor acc.1 c with _ | b
        · simpa [if_neg (by omega : ¬ countLabel acc.1 c ≤ minSize), hb] using hacc
        · obtain ⟨hidx, hold⟩ := Houtlier acc.1 c (by omega)
          simp only [if_neg (by omega : ¬ countLabel acc.1 c ≤ minSize), hb]
          intro c2 hc2
          exact move_preserves_ge acc.1 _ c b hidx hold hsm c2 (hacc c2 hc2))
    (List.range n) st hinv
  exact this

lemma compactLoop_pres (outlierOf : List ℕ → ℕ → ℕ) (bestFor : List ℕ → ℕ → Option ℕ)
    (minSize n : ℕ)
    (Houtlier : ∀ labels c, 0 < countLabel labels c →
      outlierOf labels c < labels.length ∧ labels.getD (outlierOf labels c) 0 = c) :
    ∀ (fuel : ℕ) (labels : List ℕ), (∀ c, c < n → minSize ≤ countLabel labels c) →
      ∀ c, c < n →
        minSize ≤ countLabel (compactLoop outlierOf bestFor minSize n fuel labels) c := by
  intro fuel
  induction fuel with
  | zero => intro labels h; exact h
  | succ fuel ih =>
    intro labels h
    simp only [compactLoop]
    have hsw := compactSweep_pres outlierOf bestFor minSize n Houtlier (labels, false) h
    by_cases hi : (compactSweep outlierOf bestFor minSize n (labels, false)).2 = true
    · rw [if_pos hi]
      exact ih _ hsw
    · simp only [Bool.not_eq_true] at hi
      rw [hi, if_neg (by simp)]
      exact hsw

/-- C3 amended: given `total_locations >= n_territories * 3` (the
hard-coded `min_size`), the partition `balance_clusters` returns has at
least 3 members in every territory: the minimum-size pass establishes the
bound, and the overlap-resolution and compactness passes never shrink a
territory that is at or below `min_size`.  (The proximity pass, which
runs before the minimum-size pass, may shrink a territory of exactly
`min_size` — see the counterexample — which is why the bound is only
guaranteed after the minimum-size pass.) -/
theorem balance_clusters_min_size (close : ℕ → ℕ → Bool) (hullsAny : List ℕ → Bool)
    (hullOv : List ℕ → ℕ → ℕ → Bool) (pickV : List ℕ → ℕ → ℕ → ℕ)
    (pickFrom : List ℕ → ℕ → ℕ → ℕ) (outlierOf : List ℕ → ℕ → ℕ)
    (bestFor : List ℕ → ℕ → Option ℕ) (n : ℕ) (labels0 : List ℕ) (c : ℕ)
    (Hpick : ∀ labels largest tgt, 0 < countLabel labels largest →
      pickFrom labels largest tgt < labels.length ∧
      labels.getD (pickFrom labels largest tgt) 0 = largest)
    (HpickV : ∀ labels i j, 0 < countLabel labels i →
      pickV labels i j < labels.length ∧ labels.getD (pickV labels i j) 0 = i)
    (Houtlier : ∀ labels c2, 0 < countLabel labels c2 →
      outlierOf labels c2 < labels.length ∧ labels.getD (outlierOf labels c2) 0 = c2)
    (hvals : ∀ x ∈ labels0, x < n)
    (hlen : n * 3 ≤ labels0.length)
    (hc : c < n) :
    3 ≤ countLabel
      (balance_clusters close hullsAny hullOv pickV pickFrom outlierOf bestFor n labels0) c := by
  unfold balance_clusters proximityPass sizePass overlapPass compactPass
  have hprox := proxLoop_len_vals (n := n) close 3 100 labels0 hvals
  have hsz := sizePass_fold pickFrom n 3 Hpick (List.range n) (proxLoop close 3 100 labels0)
    (fun c2 hc2 => List.mem_range.mp hc2) hprox.2 (by rw [hprox.1]; exact hlen)
  have hszc : ∀ c2, c2 < n → 3 ≤ countLabel
      ((List.range n).foldl (fun lab c2 => sizeFix pickFrom n 3 c2 (3 + 1) lab)
        (proxLoop close 3 100 labels0)) c2 :=
    fun c2 hc2 => hsz.2.2.1 c2 (List.mem_range.mpr hc2)
  have hov := overlapLoop_pres hullsAny hullOv pickV 3 n HpickV 100 _ hszc
  exact compactLoop_pres outlierOf bestFor 3 n Houtlier 50 _ hov c hc

/-- The proximity predicate of the counterexample: only the pair (0, 3)
tests as closer than the threshold. -/
def cexClose : ℕ → ℕ → Bool := fun i j => i == 0 && j == 3

/-- Counterexample to C3 as stated: on labels `[0,0,0,1,1,1]` — six
locations in two territories of exactly `min_size = 3`, so
`total_locations >= n_territories * min_size` holds — the
proximity-enforcement pass moves location 3 into territory 0 through its
`elif cluster_j_size >= min_size` branch (line 986), shrinking territory
1 from 3 to 2 members.  Proximity enforcement therefore does shrink a
territory at `min_size`; the pipeline's final bound is restored only by
the minimum-size pass that runs after it. -/
theorem proximity_shrinks_at_min_size :
    countLabel [0, 0, 0, 1, 1, 1] 1 = 3 ∧
    countLabel (proximityPass cexClose 3 [0, 0, 0, 1, 1, 1]) 1 = 2 := by
  decide

/-- A concrete selection oracle: the first index carrying the requested
label (which an argmin over that cluster's members always is an instance
of). -/
def firstWithLabel (lab : List ℕ) (v : ℕ) : ℕ := lab.findIdx (fun x => x = v)

lemma firstWithLabel_spec (lab : List ℕ) (v : ℕ) (h : 0 < countLabel lab v) :
    firstWithLabel lab v < lab.length ∧ lab.getD (firstWithLabel lab v) 0 = v := by
  have hmem : v ∈ lab := List.count_pos_iff.mp h
  have hex : ∃ x ∈ lab, (fun x => decide (x = v)) x = true := ⟨v, hmem, by simp⟩
  have hlt : lab.findIdx (fun x => decide (x = v)) < lab.length :=
    List.findIdx_lt_length_of_exists hex
  refine ⟨hlt, ?_⟩
  unfold firstWithLabel
  rw [List.getD_eq_getElem _ 0 hlt]
  have hp := List.findIdx_getElem (w := hlt)
  simpa using hp

/-- Witness for the amended C3 at a concrete instance: two territories,
six alternating locations, trivial geometry oracles. -/
theorem balance_clusters_min_size_witness :
    3 ≤ countLabel
      (balance_clusters (fun _ _ => false) (fun _ => false) (fun _ _ _ => false)
        (fun lab v _ => firstWithLabel lab v) (fun lab v _ => firstWithLabel lab v)
        firstWithLabel (fun _ _ => none) 2 [0, 1, 0, 1, 0, 1]) 1 :=
  balance_clusters_min_size (fun _ _ => false) (fun _ => false) (fun _ _ _ => false)
    (fun lab v _ => firstWithLabel lab v) (fun lab v _ => firstWithLabel lab v)
    firstWithLabel (fun _ _ => none) 2 [0, 1, 0, 1, 0, 1] 1
    (fun lab largest _ h => firstWithLabel_spec lab largest h)
    (fun lab i _ h => firstWithLabel_spec lab i h)
    (fun lab c2 h => firstWithLabel_spec lab c2 h)
    (by decide) (by decide) (by decide)

end Clustering
